import Mathlib

/-!
Shallow embedding of the CodeMap backend's control-flow-graph builder
(`src/Backend/main.py`) and proofs about it.

The Python code walks a function's `ast` statement tree and accumulates
three pieces of state: a list of edge strings (`edges`), a dict from node
id to label (`labels`) and a dict from node id to shape (`shapes`).  We
embed that state as `GState` (edges kept structured as `(frm, to, label)`
triples — exactly the data `add_edge` interpolates into its string), and
the recursion `ast_to_mermaid` / `process_stmt_list` as mutually
recursive state-passing functions.

`ast.unparse(x)` can raise; every statement or expression therefore
carries an `Option String` rendering (`none` models the call raising /
being unavailable).  Eight of the nine `ast.unparse` call sites in the
source are wrapped in `try/except`; the elif label at line 114 is not,
so the builder as a whole is fallible and returns `Option`.
-/

/-- An expression of the statement tree.  The builder only ever consults an
expression through `ast.unparse`, so we record just the outcome of that
call; `constantTrue` is the literal `ast.Constant(True)` the source builds
for the synthetic else-wrapper at line 131, whose unparse is `"True"`. -/
inductive PyExpr where
  | constantTrue : PyExpr
  | srcExpr (render : Option String) : PyExpr
deriving DecidableEq, Repr

/-- Outcome of `ast.unparse` on an expression; `none` models the call raising. -/
def PyExpr.unparse : PyExpr → Option String
  | .constantTrue => some "True"
  | .srcExpr r => r

/-- A statement of the input tree.  `process_stmt_list` (main.py lines 55–75)
special-cases `ast.If`, `ast.For` and `ast.While`; every other statement is
handled uniformly through its class name (`type(stmt).__name__`) and the
outcome of `ast.unparse(stmt)`, which is what `simple` records. -/
inductive Stmt where
  | ifStmt (test : PyExpr) (body : List Stmt) (orelse : List Stmt)
  | forStmt (target : PyExpr) (iter : PyExpr) (body : List Stmt)
  | whileStmt (test : PyExpr) (body : List Stmt)
  | simple (typeName : String) (render : Option String)

/-- A structured edge: the data `add_edge` (lines 36–42) interpolates into
the string `f'{frm} -->|{label}| {to}'` / `f'{frm} --> {to}'`. -/
structure Edge where
  frm : Nat
  dst : Nat
  label : Option String
deriving DecidableEq, Repr

/-- The accumulator state: `edges`, `labels`, `shapes` of `ast_to_mermaid`.
The two dicts are kept as insertion-ordered association lists, mirroring
Python dict semantics. -/
structure GState where
  edges : List Edge
  labels : List (Nat × String)
  shapes : List (Nat × String)
deriving DecidableEq, Repr

/-- Python dict assignment `m[k] = v`: overwrite in place at the key's
original position if the key exists, else append at the end, preserving
insertion order (Python 3.7+ dict semantics). -/
def dictSet : List (Nat × String) → Nat → String → List (Nat × String)
  | [], k, v => [(k, v)]
  | p :: rest, k, v => if p.1 = k then (k, v) :: rest else p :: dictSet rest k v

/-- Python dict read `m.get(k)`. -/
def dictGet (m : List (Nat × String)) (k : Nat) : Option String :=
  (m.find? (fun p => p.1 == k)).map (fun p => p.2)

/-- A key is present in the dict. -/
def hasKey (m : List (Nat × String)) (k : Nat) : Prop := dictGet m k ≠ none

instance (m : List (Nat × String)) (k : Nat) : Decidable (hasKey m k) := by
  unfold hasKey; infer_instance

/-- Lines 21–30 of main.py: `shape_label(node_type, text)`. -/
def shape_label (node_type : String) (text : String) : String × String :=
  if node_type = "FunctionDef" then (text, "circle")
  else if node_type = "If" ∨ node_type = "Elif" ∨ node_type = "While" ∨ node_type = "For" then
    (text, "diamond")
  else if node_type = "Return" ∨ node_type = "Expr" ∨ node_type = "Assign" ∨
      node_type = "AugAssign" ∨ node_type = "Call" ∨ node_type = "Process" then
    (text, "rect")
  else
    -- unknown node types fall through to "rect" as well (lines 28–30)
    (text, "rect")

/-- Python `text.replace(old, new)` for a single-character `old`: replace
every occurrence of `old` by the string `new`, left to right. -/
def replaceChar (old : Char) (new : List Char) : List Char → List Char
  | [] => []
  | a :: rest => (if a = old then new else [a]) ++ replaceChar old new rest

/-- Lines 32–34 of main.py: `escape_label`, the label sanitizer.
`text.replace("<","&lt;").replace(">","&gt;").replace("\"","'").replace("&","&amp;")`,
applied in exactly that order. -/
def escape_label (text : String) : String :=
  ⟨replaceChar '&' "&amp;".data
    (replaceChar '"' "'".data
      (replaceChar '>' "&gt;".data
        (replaceChar '<' "&lt;".data text.data)))⟩

/-- Lines 36–42 of main.py: `add_edge(edges, frm, to, label)` appends one
edge record. -/
def add_edge (st : GState) (frm dst : Nat) (label : Option String) : GState :=
  { st with edges := st.edges ++ [⟨frm, dst, label⟩] }

/-- The three-line pattern used at every node-creation site of
`ast_to_mermaid`:
`label_text, shape = shape_label(nt, text); labels[id] = escape_label(label_text); shapes[id] = shape`. -/
def addShapedNode (st : GState) (id : Nat) (nt text : String) : GState :=
  { st with
    labels := dictSet st.labels id (escape_label (shape_label nt text).1)
    shapes := dictSet st.shapes id (shape_label nt text).2 }

mutual

/-- Size of one statement, used as the termination measure of the builder. -/
def stmtSize : Stmt → Nat
  | .ifStmt _ b o => 1 + stmtListSize b + stmtListSize o
  | .forStmt _ _ b => 1 + stmtListSize b
  | .whileStmt _ b => 1 + stmtListSize b
  | .simple _ _ => 1

/-- Size of a statement list. -/
def stmtListSize : List Stmt → Nat
  | [] => 0
  | s :: r => 1 + stmtSize s + stmtListSize r

end

mutual

/-- Lines 87–170 of main.py: the `ast.If` branch of `ast_to_mermaid`,
head part: decision node, synthetic "Then" node, True edge, then-body.
The else-branch dispatch (lines 107–170) is split out as `ast_if_orelse`.
Returns `none` when the unguarded `ast.unparse(elif_node.test)` at line 114
raises (every other unparse site is wrapped in `try/except`). -/
def ast_to_mermaid_if (test : PyExpr) (body orelse : List Stmt) (current_id : Nat)
    (st : GState) : Option (GState × Nat) :=
  -- lines 88–95: decision node for the test (unparse guarded, fallback "condition")
  let cond_text := (PyExpr.unparse test).getD "condition"
  let st := addShapedNode st current_id "If" ("If: " ++ cond_text)
  -- lines 97–101: synthetic "Then" node and the True edge
  let then_start := current_id + 1
  let st := addShapedNode st then_start "Process" "Then"
  let st := add_edge st current_id then_start (some "True")
  -- lines 103–105: compose the then-body
  match process_stmt_list body then_start st with
  | none => none
  | some (st, then_end) => ast_if_orelse orelse current_id then_end st
termination_by 2 + 3 * stmtListSize body + 3 * stmtListSize orelse
decreasing_by
  all_goals omega

/-- Lines 107–170 of main.py: dispatch on `node.orelse` inside the `ast.If`
branch.  `current_id` is the decision node's id, `then_end` the end of the
then-body chain. -/
def ast_if_orelse : List Stmt → Nat → Nat → GState → Option (GState × Nat)
  | [], current_id, then_end, st =>
    -- lines 163–170: no else branch; merge node fed by then-exit and the False edge
    let merge_id := then_end + 1
    let st := addShapedNode st merge_id "Process" "End If"
    let st := add_edge st then_end merge_id none
    let st := add_edge st current_id merge_id (some "False")
    some (st, merge_id + 1)
  | [.ifStmt t2 b2 o2], current_id, then_end, st =>
    -- lines 110–127: elif case (orelse is a single nested If)
    let elif_start := then_end + 1
    match PyExpr.unparse t2 with
    | none => none  -- line 114: this unparse is NOT guarded by try/except
    | some elif_text =>
      let st := addShapedNode st elif_start "Elif" ("Elif: " ++ elif_text)
      let st := add_edge st current_id elif_start (some "False")
      let then_start2 := elif_start + 1
      let st := addShapedNode st then_start2 "Process" "Then"
      let st := add_edge st elif_start then_start2 (some "True")
      match process_stmt_list b2 then_start2 st with
      | none => none
      | some (st, then_end_elif) => ast_elif_tail o2 elif_start then_end then_end_elif st
  | s1 :: rest1, current_id, then_end, st =>
    -- lines 145–161: ordinary else branch
    let else_start := then_end + 1
    let st := addShapedNode st else_start "Process" "Else"
    let st := add_edge st current_id else_start (some "False")
    match process_stmt_list (s1 :: rest1) else_start st with
    | none => none
    | some (st, else_end) =>
      let merge_id := else_end + 1
      let st := addShapedNode st merge_id "Process" "End If"
      let st := add_edge st then_end merge_id none
      let st := add_edge st else_end merge_id none
      some (st, merge_id + 1)
termination_by o _ _ _ => 1 + 3 * stmtListSize o
decreasing_by
  all_goals (try simp only [stmtListSize, stmtSize])
  all_goals omega

/-- Lines 129–143 of main.py: the tail of the elif case — the optional
synthetic else-wrapper `ast.If(test=ast.Constant(True), body=else_branch_elif,
orelse=[])` followed by the "End If" merge fed by then-exit and elif-exit. -/
def ast_elif_tail : List Stmt → Nat → Nat → Nat → GState → Option (GState × Nat)
  | [], _elif_start, then_end, then_end_elif, st =>
    -- `else_branch_elif` empty: last_id stays at the elif body's end
    let merge_id := then_end_elif + 1
    let st := addShapedNode st merge_id "Process" "End If"
    let st := add_edge st then_end merge_id none
    let st := add_edge st then_end_elif merge_id none
    some (st, merge_id + 1)
  | s2 :: rest2, elif_start, then_end, then_end_elif, st =>
    -- lines 130–135: dummy If wrapping the else body
    let else_start_elif := then_end_elif + 1
    match ast_to_mermaid_if .constantTrue (s2 :: rest2) [] else_start_elif st with
    | none => none
    | some (st, next_id) =>
      let st := add_edge st elif_start else_start_elif (some "False")
      -- lines 137–143: merge fed by then-exit and elif-exit only
      let merge_id := (next_id - 1) + 1
      let st := addShapedNode st merge_id "Process" "End If"
      let st := add_edge st then_end merge_id none
      let st := add_edge st then_end_elif merge_id none
      some (st, merge_id + 1)
termination_by o _ _ _ _ => 6 + 3 * stmtListSize o
decreasing_by
  all_goals (try simp only [stmtListSize, stmtSize])
  all_goals omega

/-- Lines 172–200 of main.py: the `ast.For` branch of `ast_to_mermaid`. -/
def ast_to_mermaid_for (target iter : PyExpr) (body : List Stmt) (current_id : Nat)
    (st : GState) : Option (GState × Nat) :=
  -- lines 173–178: one try block around both unparses; a failure of either
  -- resets both to the fallbacks
  let texts :=
    match PyExpr.unparse target, PyExpr.unparse iter with
    | some t, some i => (t, i)
    | _, _ => ("var", "iterable")
  let st := addShapedNode st current_id "For" ("For: " ++ texts.1 ++ " in " ++ texts.2)
  let body_start := current_id + 1
  let st := addShapedNode st body_start "Process" "Body"
  let st := add_edge st current_id body_start (some "True")
  match process_stmt_list body body_start st with
  | none => none
  | some (st, last) =>
    -- line 193: unconditional back-edge
    let st := add_edge st last current_id (some "Next Iteration")
    let after_loop := last + 1
    let st := addShapedNode st after_loop "Process" "After Loop"
    let st := add_edge st current_id after_loop (some "False")
    some (st, after_loop + 1)
termination_by 2 + 3 * stmtListSize body
decreasing_by
  all_goals omega

/-- Lines 202–228 of main.py: the `ast.While` branch of `ast_to_mermaid`. -/
def ast_to_mermaid_while (test : PyExpr) (body : List Stmt) (current_id : Nat)
    (st : GState) : Option (GState × Nat) :=
  let cond_text := (PyExpr.unparse test).getD "condition"
  let st := addShapedNode st current_id "While" ("While: " ++ cond_text)
  let body_start := current_id + 1
  let st := addShapedNode st body_start "Process" "Body"
  let st := add_edge st current_id body_start (some "True")
  match process_stmt_list body body_start st with
  | none => none
  | some (st, last) =>
    -- line 221: unconditional back-edge
    let st := add_edge st last current_id (some "Repeat")
    let after_loop := last + 1
    let st := addShapedNode st after_loop "Process" "After Loop"
    let st := add_edge st current_id after_loop (some "False")
    some (st, after_loop + 1)
termination_by 2 + 3 * stmtListSize body
decreasing_by
  all_goals omega

/-- Lines 55–75 of main.py: `process_stmt_list(stmt_list, start_id)`, the
sequence composer.  It threads `last_id` through the list; compound
statements recurse into `ast_to_mermaid` and the predecessor is connected
to `next_id_sub - 1` (the sub-fragment's final node); every other statement
gets one node labeled from its unparse (fallback: its class name) and an
unlabeled chaining edge.  Nothing stops at a return statement. -/
def process_stmt_list (stmt_list : List Stmt) (last_id : Nat) (st : GState) :
    Option (GState × Nat) :=
  match stmt_list with
  | [] => some (st, last_id)
  | stmt :: rest =>
    let next_id := last_id + 1
    match stmt with
    | .ifStmt t b o =>
      match ast_to_mermaid_if t b o next_id st with
      | none => none
      | some (st, next_id_sub) =>
        let st := add_edge st last_id (next_id_sub - 1) none
        process_stmt_list rest (next_id_sub - 1) st
    | .forStmt tg it b =>
      match ast_to_mermaid_for tg it b next_id st with
      | none => none
      | some (st, next_id_sub) =>
        let st := add_edge st last_id (next_id_sub - 1) none
        process_stmt_list rest (next_id_sub - 1) st
    | .whileStmt t b =>
      match ast_to_mermaid_while t b next_id st with
      | none => none
      | some (st, next_id_sub) =>
        let st := add_edge st last_id (next_id_sub - 1) none
        process_stmt_list rest (next_id_sub - 1) st
    | .simple tn render =>
      -- lines 64–74: `ast.unparse(stmt)` guarded, fallback `type(stmt).__name__`
      let code_str := render.getD tn
      let st := addShapedNode st next_id tn code_str
      let st := add_edge st last_id next_id none
      process_stmt_list rest next_id st
termination_by 3 * stmtListSize stmt_list
decreasing_by
  all_goals (try simp only [stmtListSize, stmtSize])
  all_goals omega

end

/-- Lines 77–85 of main.py: the `ast.FunctionDef` branch of `ast_to_mermaid` —
label the entry node `Function: {name}` (shape `circle`), compose the body
from `current_id`, return `last_id + 1`. -/
def ast_to_mermaid_fn (name : String) (body : List Stmt) (current_id : Nat)
    (st : GState) : Option (GState × Nat) :=
  let st := addShapedNode st current_id "FunctionDef" ("Function: " ++ name)
  match process_stmt_list body current_id st with
  | none => none
  | some (st, last_id) => some (st, last_id + 1)

/-- Line 316 of main.py: `ast_to_mermaid(func_node)` — a whole-function build
starting from node id `0` with fresh empty accumulators. -/
def buildFunction (name : String) (body : List Stmt) : Option (GState × Nat) :=
  ast_to_mermaid_fn name body 0 ⟨[], [], []⟩

/-! ## Predicates on statement trees used by the theorems -/

mutual

/-- No statement in this subtree is a nested function definition
(class name `FunctionDef`), the one statement kind `shape_label` maps to
the `circle` shape besides the build's entry node. -/
def stmtNoDef : Stmt → Bool
  | .ifStmt _ b o => stmtsNoDef b && stmtsNoDef o
  | .forStmt _ _ b => stmtsNoDef b
  | .whileStmt _ b => stmtsNoDef b
  | .simple tn _ => tn != "FunctionDef"

/-- Conjunction of `stmtNoDef` over a list. -/
def stmtsNoDef : List Stmt → Bool
  | [] => true
  | s :: r => stmtNoDef s && stmtsNoDef r

end

/-- The statement is a `simple` one (neither `If` nor `For` nor `While`). -/
def stmtIsSimple : Stmt → Bool
  | .simple _ _ => true
  | _ => false

/-- Every statement of the list is simple. -/
def stmtsAllSimple (l : List Stmt) : Bool := l.all stmtIsSimple

/-- Reachability along the accumulated edges, in direction of the edges. -/
def Reach (st : GState) (a b : Nat) : Prop :=
  Relation.ReflTransGen (fun x y => ∃ e ∈ st.edges, e.frm = x ∧ e.dst = y) a b

/-! ## Basic lemmas about the accumulator operations -/

theorem dictGet_set_self (m : List (Nat × String)) (k : Nat) (v : String) :
    dictGet (dictSet m k v) k = some v := by
  induction m with
  | nil => simp [dictSet, dictGet, List.find?]
  | cons p rest ih =>
    by_cases hp : p.1 = k
    · simp [dictSet, dictGet, List.find?, hp]
    · simp only [dictSet, if_neg hp, dictGet, List.find?, beq_false_of_ne hp]
      exact ih

theorem dictGet_set_ne (m : List (Nat × String)) (k j : Nat) (v : String) (h : k ≠ j) :
    dictGet (dictSet m k v) j = dictGet m j := by
  induction m with
  | nil => simp [dictSet, dictGet, List.find?, beq_false_of_ne h]
  | cons p rest ih =>
    by_cases hp : p.1 = k
    · have hpj : (p.1 == j) = false := beq_false_of_ne (by rw [hp]; exact h)
      simp [dictSet, dictGet, List.find?, hp, beq_false_of_ne h, hpj]
    · simp only [dictSet, if_neg hp, dictGet, List.find?]
      cases hpj : (p.1 == j)
      · simpa [dictGet] using ih
      · simp

theorem hasKey_set (m : List (Nat × String)) (k j : Nat) (v : String) :
    hasKey (dictSet m k v) j ↔ j = k ∨ hasKey m j := by
  unfold hasKey
  by_cases h : k = j
  · subst h; simp [dictGet_set_self]
  · rw [dictGet_set_ne m k j v h]
    simp [Ne.symm h]

theorem hasKey_of_dictGet {m : List (Nat × String)} {k : Nat} {v : String}
    (h : dictGet m k = some v) : hasKey m k := by
  unfold hasKey; simp [h]

theorem edges_add_edge (st : GState) (a b : Nat) (l : Option String) :
    (add_edge st a b l).edges = st.edges ++ [⟨a, b, l⟩] := rfl

theorem labels_add_edge (st : GState) (a b : Nat) (l : Option String) :
    (add_edge st a b l).labels = st.labels := rfl

theorem shapes_add_edge (st : GState) (a b : Nat) (l : Option String) :
    (add_edge st a b l).shapes = st.shapes := rfl

theorem labels_addShapedNode (st : GState) (id : Nat) (nt text : String) :
    (addShapedNode st id nt text).labels =
      dictSet st.labels id (escape_label (shape_label nt text).1) := rfl

theorem shapes_addShapedNode (st : GState) (id : Nat) (nt text : String) :
    (addShapedNode st id nt text).shapes = dictSet st.shapes id (shape_label nt text).2 := rfl

theorem edges_addShapedNode (st : GState) (id : Nat) (nt text : String) :
    (addShapedNode st id nt text).edges = st.edges := rfl

/-! ## Compositional invariants for the mutual recursion -/

/-- The state evolves by writing labels and shapes only at keys `≥ lo` and
appending edges: everything below `lo` is preserved, keys only grow. -/
structure Evolve (lo : Nat) (st st' : GState) : Prop where
  labels_lo : ∀ k, k < lo → dictGet st'.labels k = dictGet st.labels k
  shapes_lo : ∀ k, k < lo → dictGet st'.shapes k = dictGet st.shapes k
  edges_mono : ∀ e, e ∈ st.edges → e ∈ st'.edges
  keys_mono : ∀ k, hasKey st.labels k → hasKey st'.labels k

theorem Evolve.rfl (lo : Nat) (st : GState) : Evolve lo st st :=
  ⟨fun _ _ => Eq.refl _, fun _ _ => Eq.refl _, fun _ h => h, fun _ h => h⟩

theorem Evolve.trans {lo : Nat} {st st₁ st₂ : GState}
    (h1 : Evolve lo st st₁) (h2 : Evolve lo st₁ st₂) : Evolve lo st st₂ :=
  ⟨fun k hk => (h2.labels_lo k hk).trans (h1.labels_lo k hk),
   fun k hk => (h2.shapes_lo k hk).trans (h1.shapes_lo k hk),
   fun e he => h2.edges_mono e (h1.edges_mono e he),
   fun k hk => h2.keys_mono k (h1.keys_mono k hk)⟩

theorem Evolve.weaken {lo lo' : Nat} {st st' : GState}
    (h : Evolve lo st st') (hle : lo' ≤ lo) : Evolve lo' st st' :=
  ⟨fun k hk => h.labels_lo k (lt_of_lt_of_le hk hle),
   fun k hk => h.shapes_lo k (lt_of_lt_of_le hk hle),
   h.edges_mono, h.keys_mono⟩

theorem Evolve.addShapedNode {lo : Nat} (st : GState) {id : Nat} (nt text : String)
    (hle : lo ≤ id) : Evolve lo st (addShapedNode st id nt text) := by
  refine ⟨fun k hk => ?_, fun k hk => ?_, fun e he => he, fun k hk => ?_⟩
  · exact dictGet_set_ne _ _ _ _ (by omega)
  · exact dictGet_set_ne _ _ _ _ (by omega)
  · rw [labels_addShapedNode, hasKey_set]; exact Or.inr hk

theorem Evolve.add_edge {lo : Nat} (st : GState) (a b : Nat) (l : Option String) :
    Evolve lo st (add_edge st a b l) :=
  ⟨fun _ _ => Eq.refl _, fun _ _ => Eq.refl _, fun _ he => List.mem_append_left _ he,
   fun _ h => h⟩

/-- Every edge of `st` that is not already an edge of `st0` has both its
endpoints among the labeled node ids of `st` (referential closure of the
newly added edges). -/
def EdgesClosedFrom (st0 st : GState) : Prop :=
  ∀ e, e ∈ st.edges → e ∈ st0.edges ∨ (hasKey st.labels e.frm ∧ hasKey st.labels e.dst)

theorem ecf_rfl (st : GState) : EdgesClosedFrom st st := fun _ he => Or.inl he

theorem ecf_trans {st0 st1 st2 : GState} (h1 : EdgesClosedFrom st0 st1)
    (h2 : EdgesClosedFrom st1 st2) (mono : ∀ k, hasKey st1.labels k → hasKey st2.labels k) :
    EdgesClosedFrom st0 st2 := by
  intro e he
  rcases h2 e he with he1 | hk
  · rcases h1 e he1 with h | hk
    · exact Or.inl h
    · exact Or.inr ⟨mono _ hk.1, mono _ hk.2⟩
  · exact Or.inr hk

theorem ecf_addShapedNode {st0 st : GState} (h : EdgesClosedFrom st0 st)
    (id : Nat) (nt text : String) : EdgesClosedFrom st0 (addShapedNode st id nt text) := by
  intro e he
  rcases h e he with h0 | hk
  · exact Or.inl h0
  · rw [labels_addShapedNode]
    exact Or.inr ⟨(hasKey_set _ _ _ _).2 (Or.inr hk.1), (hasKey_set _ _ _ _).2 (Or.inr hk.2)⟩

theorem ecf_add_edge {st0 st : GState} (h : EdgesClosedFrom st0 st) {a b : Nat}
    (l : Option String) (ha : hasKey st.labels a) (hb : hasKey st.labels b) :
    EdgesClosedFrom st0 (add_edge st a b l) := by
  intro e he
  rw [edges_add_edge, List.mem_append] at he
  rcases he with he | he
  · rcases h e he with h0 | hk
    · exact Or.inl h0
    · exact Or.inr hk
  · simp only [List.mem_singleton] at he
    subst he
    exact Or.inr ⟨ha, hb⟩

/-- Every edge of `st` not already in `st0` has destination `≤ hi`. -/
def EdgesBelow (st0 st : GState) (hi : Nat) : Prop :=
  ∀ e, e ∈ st.edges → e ∈ st0.edges ∨ e.dst ≤ hi

theorem ebl_rfl (st : GState) (hi : Nat) : EdgesBelow st st hi := fun _ he => Or.inl he

theorem ebl_trans {st0 st1 st2 : GState} {hi : Nat} (h1 : EdgesBelow st0 st1 hi)
    (h2 : EdgesBelow st1 st2 hi) : EdgesBelow st0 st2 hi := by
  intro e he
  rcases h2 e he with he1 | hd
  · exact h1 e he1
  · exact Or.inr hd

theorem ebl_weaken {st0 st : GState} {hi hi' : Nat} (h : EdgesBelow st0 st hi)
    (hle : hi ≤ hi') : EdgesBelow st0 st hi' := by
  intro e he
  rcases h e he with h0 | hd
  · exact Or.inl h0
  · exact Or.inr (le_trans hd hle)

theorem ebl_addShapedNode {st0 st : GState} {hi : Nat} (h : EdgesBelow st0 st hi)
    (id : Nat) (nt text : String) : EdgesBelow st0 (addShapedNode st id nt text) hi := h

theorem ebl_add_edge {st0 st : GState} {hi : Nat} (h : EdgesBelow st0 st hi)
    (a : Nat) {b : Nat} (l : Option String) (hb : b ≤ hi) :
    EdgesBelow st0 (add_edge st a b l) hi := by
  intro e he
  rw [edges_add_edge, List.mem_append] at he
  rcases he with he | he
  · exact h e he
  · simp only [List.mem_singleton] at he
    subst he
    exact Or.inr hb

/-- No new `circle`-shaped node appears between `st0` and `st`. -/
def CirclesFrom (st0 st : GState) : Prop :=
  ∀ k, dictGet st.shapes k = some "circle" → dictGet st0.shapes k = some "circle"

theorem cf_rfl (st : GState) : CirclesFrom st st := fun _ h => h

theorem cf_trans {st0 st1 st2 : GState} (h1 : CirclesFrom st0 st1) (h2 : CirclesFrom st1 st2) :
    CirclesFrom st0 st2 := fun k h => h1 k (h2 k h)

theorem cf_addShapedNode {st0 st : GState} (h : CirclesFrom st0 st) (id : Nat)
    {nt text : String} (hnc : (shape_label nt text).2 ≠ "circle") :
    CirclesFrom st0 (addShapedNode st id nt text) := by
  intro k hk
  rw [shapes_addShapedNode] at hk
  by_cases hik : id = k
  · subst hik
    rw [dictGet_set_self] at hk
    exact absurd (Option.some_injective _ hk) hnc
  · rw [dictGet_set_ne _ _ _ _ hik] at hk
    exact h k hk

theorem cf_add_edge {st0 st : GState} (h : CirclesFrom st0 st) (a b : Nat)
    (l : Option String) : CirclesFrom st0 (add_edge st a b l) := h

/-- The shape produced by `shape_label` is `circle` exactly for `FunctionDef`. -/
theorem shape_label_circle (nt text : String) :
    (shape_label nt text).2 = "circle" ↔ nt = "FunctionDef" := by
  unfold shape_label
  split
  · rename_i h; simp [h]
  · split
    · rename_i h _; simp [h]
    · split
      · rename_i h _ _; simp [h]
      · rename_i h _ _; simp [h]

/-! ## Invariant bundles for the mutual recursion -/

/-- Postcondition of the three node handlers (`If`/`For`/`While`) called at
`id` transforming `st` into `st'` and returning next id `n`; `nd` is the
no-nested-function-definition flag of the handled sub-statements. -/
structure NodePost (id : Nat) (st st' : GState) (n : Nat) (nd : Bool) : Prop where
  lt : id + 2 ≤ n
  ev : Evolve id st st'
  self_key : hasKey st'.labels id
  last_key : hasKey st'.labels (n - 1)
  closure : EdgesClosedFrom st st'
  edges_hi : EdgesBelow st st' (n - 1)
  circles : nd = true → CirclesFrom st st'

/-- Postcondition of `ast_if_orelse` / `ast_elif_tail`: writes only above
`base`, final merge node `n - 1`; closure of the added edges requires the
ids listed in `pre` to be labeled on entry. -/
structure TailPost (base : Nat) (pre : List Nat) (st st' : GState) (n : Nat) (nd : Bool) : Prop where
  lt : base + 2 ≤ n
  ev : Evolve (base + 1) st st'
  last_key : hasKey st'.labels (n - 1)
  closure : (∀ p ∈ pre, hasKey st.labels p) → EdgesClosedFrom st st'
  edges_hi : EdgesBelow st st' (n - 1)
  circles : nd = true → CirclesFrom st st'

/-- Postcondition of `process_stmt_list` from chain end `last_id` to `last'`. -/
structure ListPost (last_id : Nat) (st st' : GState) (last' : Nat) (nd : Bool) : Prop where
  le : last_id ≤ last'
  ev : Evolve (last_id + 1) st st'
  last_key : hasKey st.labels last_id → hasKey st'.labels last'
  closure : hasKey st.labels last_id → EdgesClosedFrom st st'
  edges_hi : EdgesBelow st st' last'
  circles : nd = true → CirclesFrom st st'

theorem hasKey_addShapedNode_self (st : GState) (id : Nat) (nt text : String) :
    hasKey (addShapedNode st id nt text).labels id := by
  rw [labels_addShapedNode, hasKey_set]; exact Or.inl rfl

theorem hasKey_addShapedNode_of {st : GState} {k : Nat} (id : Nat) (nt text : String)
    (h : hasKey st.labels k) : hasKey (addShapedNode st id nt text).labels k := by
  rw [labels_addShapedNode, hasKey_set]; exact Or.inr h

theorem shape_ne_circle {nt : String} (tx : String) (h : nt ≠ "FunctionDef") :
    (shape_label nt tx).2 ≠ "circle" := by
  rw [Ne, shape_label_circle]; exact h

/-! ## Glue lemmas: one per control path of the builder -/

/-- Gluing for `ast_if_orelse []` (main.py lines 163–170). -/
theorem TailPost.ofNoElse (st : GState) (cid te : Nat) (nd : Bool) :
    TailPost te [cid, te] st
      (add_edge (add_edge (addShapedNode st (te + 1) "Process" "End If") te (te + 1) none)
        cid (te + 1) (some "False")) (te + 1 + 1) nd := by
  refine ⟨le_rfl, ?_, ?_, ?_, ?_, ?_⟩
  · exact (Evolve.addShapedNode st "Process" "End If" le_rfl).trans
      ((Evolve.add_edge _ te (te + 1) none).trans (Evolve.add_edge _ cid (te + 1) (some "False")))
  · exact hasKey_addShapedNode_self st (te + 1) "Process" "End If"
  · intro hpre
    have hte : hasKey st.labels te := hpre te (by simp)
    have hcid : hasKey st.labels cid := hpre cid (by simp)
    exact ecf_add_edge
      (ecf_add_edge (ecf_addShapedNode (ecf_rfl st) (te + 1) "Process" "End If")
        none (hasKey_addShapedNode_of _ _ _ hte) (hasKey_addShapedNode_self _ _ _ _))
      (some "False") (hasKey_addShapedNode_of _ _ _ hcid) (hasKey_addShapedNode_self _ _ _ _)
  · exact ebl_add_edge (ebl_add_edge (ebl_addShapedNode (ebl_rfl st _) _ _ _) te none le_rfl)
      cid (some "False") le_rfl
  · intro _
    exact cf_add_edge (cf_add_edge (cf_addShapedNode (cf_rfl st) (te + 1)
      (shape_ne_circle "End If" (by decide))) te (te + 1) none) cid (te + 1) (some "False")

/-- Gluing for a `simple` statement step of `process_stmt_list`
(main.py lines 64–74). -/
theorem ListPost.ofSimple {st st' : GState} {last last' : Nat} {ndr : Bool}
    (tn : String) (code : String)
    (hrest : ListPost (last + 1)
      (add_edge (addShapedNode st (last + 1) tn code) last (last + 1) none) st' last' ndr)
    (hnd : tn ≠ "FunctionDef") :
    ListPost last st st' last' ndr := by
  set st₂ := add_edge (addShapedNode st (last + 1) tn code) last (last + 1) none with hst₂
  have hkey1 : hasKey st₂.labels (last + 1) := hasKey_addShapedNode_self st (last + 1) tn code
  have hev2 : Evolve (last + 1) st st₂ :=
    (Evolve.addShapedNode st tn code le_rfl).trans (Evolve.add_edge _ last (last + 1) none)
  refine ⟨?_, ?_, ?_, ?_, ?_, ?_⟩
  · have := hrest.le; omega
  · exact hev2.trans (hrest.ev.weaken (by omega))
  · intro _; exact hrest.last_key hkey1
  · intro hk
    have hc2 : EdgesClosedFrom st st₂ :=
      ecf_add_edge (ecf_addShapedNode (ecf_rfl st) (last + 1) tn code) none
        (hasKey_addShapedNode_of _ _ _ hk) (hasKey_addShapedNode_self _ _ _ _)
    exact ecf_trans hc2 (hrest.closure hkey1) hrest.ev.keys_mono
  · have hb2 : EdgesBelow st st₂ (last + 1) :=
      ebl_add_edge (ebl_addShapedNode (ebl_rfl st _) _ _ _) last none le_rfl
    exact ebl_trans (ebl_weaken hb2 hrest.le) hrest.edges_hi
  · intro hndr
    exact cf_trans (cf_add_edge (cf_addShapedNode (cf_rfl st) (last + 1)
      (shape_ne_circle code hnd)) last (last + 1) none) (hrest.circles hndr)

/-- Gluing for a compound statement step of `process_stmt_list`
(main.py lines 59–63): the sub-build's fragment is chained in via an edge to
`next_id_sub - 1`, its final node. -/
theorem ListPost.ofCompound {st st₂ st' : GState} {last ns last' : Nat} {ndc ndr : Bool}
    (hnp : NodePost (last + 1) st st₂ ns ndc)
    (hrest : ListPost (ns - 1) (add_edge st₂ last (ns - 1) none) st' last' ndr) :
    ListPost last st st' last' (ndc && ndr) := by
  have hlt := hnp.lt
  have hle := hrest.le
  have hkey : hasKey (add_edge st₂ last (ns - 1) none).labels (ns - 1) := hnp.last_key
  refine ⟨?_, ?_, ?_, ?_, ?_, ?_⟩
  · omega
  · exact (hnp.ev.weaken (by omega)).trans
      ((Evolve.add_edge st₂ last (ns - 1) none).trans (hrest.ev.weaken (by omega)))
  · intro _; exact hrest.last_key hkey
  · intro hk
    have hc2 : EdgesClosedFrom st (add_edge st₂ last (ns - 1) none) :=
      ecf_add_edge hnp.closure none (hnp.ev.keys_mono last hk) hnp.last_key
    exact ecf_trans hc2 (hrest.closure hkey) hrest.ev.keys_mono
  · have hb2 : EdgesBelow st (add_edge st₂ last (ns - 1) none) (ns - 1) :=
      ebl_add_edge hnp.edges_hi last none le_rfl
    exact ebl_trans (ebl_weaken hb2 hle) hrest.edges_hi
  · intro hnd
    rw [Bool.and_eq_true] at hnd
    exact cf_trans (cf_add_edge (hnp.circles hnd.1) last (ns - 1) none) (hrest.circles hnd.2)

/-- Gluing for the head of the `ast.If` handler (main.py lines 87–105)
composed with the result of the else-branch dispatch. -/
theorem NodePost.ofIfHead {st st₃ st' : GState} {id te n : Nat} {ndb ndo : Bool} (txt : String)
    (hbody : ListPost (id + 1)
      (add_edge (addShapedNode (addShapedNode st id "If" txt) (id + 1) "Process" "Then")
        id (id + 1) (some "True")) st₃ te ndb)
    (horelse : TailPost te [id, te] st₃ st' n ndo) :
    NodePost id st st' n (ndb && ndo) := by
  set st₂ := add_edge (addShapedNode (addShapedNode st id "If" txt) (id + 1) "Process" "Then")
    id (id + 1) (some "True") with hst₂
  have hkid : hasKey st₂.labels id :=
    hasKey_addShapedNode_of _ _ _ (hasKey_addShapedNode_self st id "If" txt)
  have hkthen : hasKey st₂.labels (id + 1) := hasKey_addShapedNode_self _ _ _ _
  have hble := hbody.le
  have holt := horelse.lt
  have hkid3 : hasKey st₃.labels id := hbody.ev.keys_mono id hkid
  have hkte3 : hasKey st₃.labels te := hbody.last_key hkthen
  have hev2 : Evolve id st st₂ :=
    ((Evolve.addShapedNode st "If" txt le_rfl).trans
      (Evolve.addShapedNode _ "Process" "Then" (by omega))).trans
      (Evolve.add_edge _ id (id + 1) (some "True"))
  refine ⟨by omega, ?_, ?_, ?_, ?_, ?_, ?_⟩
  · exact hev2.trans ((hbody.ev.weaken (by omega)).trans (horelse.ev.weaken (by omega)))
  · exact horelse.ev.keys_mono id hkid3
  · exact horelse.last_key
  · have hc2 : EdgesClosedFrom st st₂ :=
      ecf_add_edge (ecf_addShapedNode (ecf_addShapedNode (ecf_rfl st) id "If" txt)
        (id + 1) "Process" "Then") (some "True") hkid hkthen
    have hc3 : EdgesClosedFrom st st₃ := ecf_trans hc2 (hbody.closure hkthen) hbody.ev.keys_mono
    refine ecf_trans hc3 (horelse.closure ?_) horelse.ev.keys_mono
    intro p hp
    simp only [List.mem_cons, List.mem_singleton, List.not_mem_nil, or_false] at hp
    rcases hp with rfl | rfl
    · exact hkid3
    · exact hkte3
  · have hb2 : EdgesBelow st st₂ (n - 1) :=
      ebl_add_edge (ebl_addShapedNode (ebl_addShapedNode (ebl_rfl st _) _ _ _) _ _ _)
        id (some "True") (by omega)
    exact ebl_trans (ebl_trans hb2 (ebl_weaken hbody.edges_hi (by omega))) horelse.edges_hi
  · intro hnd
    rw [Bool.and_eq_true] at hnd
    have hc2 : CirclesFrom st st₂ :=
      cf_add_edge (cf_addShapedNode (cf_addShapedNode (cf_rfl st) id
        (shape_ne_circle txt (by decide))) (id + 1)
        (shape_ne_circle "Then" (by decide))) id (id + 1) (some "True")
    exact cf_trans (cf_trans hc2 (hbody.circles hnd.1)) (horelse.circles hnd.2)

/-- Gluing for the `ast.For` / `ast.While` handlers (main.py lines 172–228):
header and "Body" nodes, True edge, body, unconditional back-edge, "After
Loop" node, False edge. -/
theorem NodePost.ofLoopParts {st st₃ : GState} {id last : Nat} {nd : Bool}
    (nt txt lbl : String) (hnt : nt ≠ "FunctionDef")
    (hbody : ListPost (id + 1)
      (add_edge (addShapedNode (addShapedNode st id nt txt) (id + 1) "Process" "Body")
        id (id + 1) (some "True")) st₃ last nd) :
    NodePost id st
      (add_edge (addShapedNode (add_edge st₃ last id (some lbl)) (last + 1) "Process" "After Loop")
        id (last + 1) (some "False")) (last + 1 + 1) nd := by
  set st₂ := add_edge (addShapedNode (addShapedNode st id nt txt) (id + 1) "Process" "Body")
    id (id + 1) (some "True") with hst₂
  have hkid : hasKey st₂.labels id :=
    hasKey_addShapedNode_of _ _ _ (hasKey_addShapedNode_self st id nt txt)
  have hkbody : hasKey st₂.labels (id + 1) := hasKey_addShapedNode_self _ _ _ _
  have hble := hbody.le
  have hkid3 : hasKey st₃.labels id := hbody.ev.keys_mono id hkid
  have hklast3 : hasKey st₃.labels last := hbody.last_key hkbody
  have hev2 : Evolve id st st₂ :=
    ((Evolve.addShapedNode st nt txt le_rfl).trans
      (Evolve.addShapedNode _ "Process" "Body" (by omega))).trans
      (Evolve.add_edge _ id (id + 1) (some "True"))
  refine ⟨by omega, ?_, ?_, ?_, ?_, ?_, ?_⟩
  · exact hev2.trans ((hbody.ev.weaken (by omega)).trans
      (((Evolve.add_edge st₃ last id (some lbl)).trans
        ((Evolve.addShapedNode _ "Process" "After Loop" (by omega)).trans
          (Evolve.add_edge _ id (last + 1) (some "False")))).weaken le_rfl))
  · exact hasKey_addShapedNode_of _ _ _ hkid3
  · exact hasKey_addShapedNode_self _ _ _ _
  · have hc2 : EdgesClosedFrom st st₂ :=
      ecf_add_edge (ecf_addShapedNode (ecf_addShapedNode (ecf_rfl st) id nt txt)
        (id + 1) "Process" "Body") (some "True") hkid hkbody
    have hc3 : EdgesClosedFrom st st₃ := ecf_trans hc2 (hbody.closure hkbody) hbody.ev.keys_mono
    exact ecf_add_edge (ecf_addShapedNode (ecf_add_edge hc3 (some lbl) hklast3 hkid3)
      (last + 1) "Process" "After Loop") (some "False")
      (hasKey_addShapedNode_of _ _ _ hkid3) (hasKey_addShapedNode_self _ _ _ _)
  · have hb2 : EdgesBelow st st₂ (last + 1) :=
      ebl_add_edge (ebl_addShapedNode (ebl_addShapedNode (ebl_rfl st _) _ _ _) _ _ _)
        id (some "True") (by omega)
    exact ebl_add_edge (ebl_addShapedNode (ebl_add_edge
      (ebl_trans hb2 (ebl_weaken hbody.edges_hi (by omega))) last (some lbl) (by omega))
      (last + 1) "Process" "After Loop") id (some "False") le_rfl
  · intro hnd
    have hc2 : CirclesFrom st st₂ :=
      cf_add_edge (cf_addShapedNode (cf_addShapedNode (cf_rfl st) id
        (shape_ne_circle txt hnt)) (id + 1)
        (shape_ne_circle "Body" (by decide))) id (id + 1) (some "True")
    exact cf_add_edge (cf_addShapedNode (cf_add_edge
      (cf_trans hc2 (hbody.circles hnd)) last id (some lbl)) (last + 1)
      (shape_ne_circle "After Loop" (by decide))) id (last + 1) (some "False")

/-- Gluing for the elif case of the else-branch dispatch (main.py lines
110–127) composed with the result of `ast_elif_tail`. -/
theorem TailPost.ofElifHead {st st₃ st' : GState} {cid te tee n : Nat} {ndb ndo : Bool}
    (etxt : String)
    (hbody : ListPost (te + 1 + 1)
      (add_edge (addShapedNode (add_edge (addShapedNode st (te + 1) "Elif" etxt)
        cid (te + 1) (some "False")) (te + 1 + 1) "Process" "Then")
        (te + 1) (te + 1 + 1) (some "True")) st₃ tee ndb)
    (htail : TailPost tee [te + 1, te, tee] st₃ st' n ndo) :
    TailPost te [cid, te] st st' n (ndb && ndo) := by
  set st₂ := add_edge (addShapedNode (add_edge (addShapedNode st (te + 1) "Elif" etxt)
    cid (te + 1) (some "False")) (te + 1 + 1) "Process" "Then")
    (te + 1) (te + 1 + 1) (some "True") with hst₂
  have hkelif : hasKey st₂.labels (te + 1) :=
    hasKey_addShapedNode_of _ _ _ (hasKey_addShapedNode_self st (te + 1) "Elif" etxt)
  have hkthen : hasKey st₂.labels (te + 1 + 1) := hasKey_addShapedNode_self _ _ _ _
  have hble := hbody.le
  have htlt := htail.lt
  have hktee3 : hasKey st₃.labels tee := hbody.last_key hkthen
  have hkelif3 : hasKey st₃.labels (te + 1) := hbody.ev.keys_mono _ hkelif
  have hev2 : Evolve (te + 1) st st₂ :=
    (((Evolve.addShapedNode st "Elif" etxt le_rfl).trans
      (Evolve.add_edge _ cid (te + 1) (some "False"))).trans
      (Evolve.addShapedNode _ "Process" "Then" (by omega))).trans
      (Evolve.add_edge _ (te + 1) (te + 1 + 1) (some "True"))
  refine ⟨by omega, ?_, ?_, ?_, ?_, ?_⟩
  · exact hev2.trans ((hbody.ev.weaken (by omega)).trans (htail.ev.weaken (by omega)))
  · exact htail.last_key
  · intro hpre
    have hte : hasKey st.labels te := hpre te (by simp)
    have hcid : hasKey st.labels cid := hpre cid (by simp)
    have hc2 : EdgesClosedFrom st st₂ :=
      ecf_add_edge (ecf_addShapedNode (ecf_add_edge (ecf_addShapedNode (ecf_rfl st)
        (te + 1) "Elif" etxt) (some "False")
        (hasKey_addShapedNode_of _ _ _ hcid) (hasKey_addShapedNode_self _ _ _ _))
        (te + 1 + 1) "Process" "Then") (some "True") hkelif hkthen
    have hc3 : EdgesClosedFrom st st₃ := ecf_trans hc2 (hbody.closure hkthen) hbody.ev.keys_mono
    refine ecf_trans hc3 (htail.closure ?_) htail.ev.keys_mono
    intro p hp
    simp only [List.mem_cons, List.mem_singleton, List.not_mem_nil, or_false] at hp
    rcases hp with h | h | h
    · rw [h]; exact hkelif3
    · rw [h]; exact hbody.ev.keys_mono te (hev2.keys_mono te hte)
    · rw [h]; exact hktee3
  · have hb2 : EdgesBelow st st₂ (n - 1) :=
      ebl_add_edge (ebl_addShapedNode (ebl_add_edge (ebl_addShapedNode (ebl_rfl st _) _ _ _)
        cid (some "False") (by omega)) _ _ _) (te + 1) (some "True") (by omega)
    exact ebl_trans (ebl_trans hb2 (ebl_weaken hbody.edges_hi (by omega))) htail.edges_hi
  · intro hnd
    rw [Bool.and_eq_true] at hnd
    have hc2 : CirclesFrom st st₂ :=
      cf_add_edge (cf_addShapedNode (cf_add_edge (cf_addShapedNode (cf_rfl st) (te + 1)
        (shape_ne_circle etxt (by decide))) cid (te + 1) (some "False")) (te + 1 + 1)
        (shape_ne_circle "Then" (by decide))) (te + 1) (te + 1 + 1) (some "True")
    exact cf_trans (cf_trans hc2 (hbody.circles hnd.1)) (htail.circles hnd.2)

/-- Gluing for `ast_elif_tail []` (main.py lines 137–143 with empty else). -/
theorem TailPost.ofElifTailNil (st : GState) (es te tee : Nat) (nd : Bool) :
    TailPost tee [es, te, tee] st
      (add_edge (add_edge (addShapedNode st (tee + 1) "Process" "End If") te (tee + 1) none)
        tee (tee + 1) none) (tee + 1 + 1) nd := by
  refine ⟨le_rfl, ?_, ?_, ?_, ?_, ?_⟩
  · exact (Evolve.addShapedNode st "Process" "End If" le_rfl).trans
      ((Evolve.add_edge _ te (tee + 1) none).trans (Evolve.add_edge _ tee (tee + 1) none))
  · exact hasKey_addShapedNode_self st (tee + 1) "Process" "End If"
  · intro hpre
    have hte : hasKey st.labels te := hpre te (by simp)
    have htee : hasKey st.labels tee := hpre tee (by simp)
    exact ecf_add_edge
      (ecf_add_edge (ecf_addShapedNode (ecf_rfl st) (tee + 1) "Process" "End If")
        none (hasKey_addShapedNode_of _ _ _ hte) (hasKey_addShapedNode_self _ _ _ _))
      none (hasKey_addShapedNode_of _ _ _ htee) (hasKey_addShapedNode_self _ _ _ _)
  · exact ebl_add_edge (ebl_add_edge (ebl_addShapedNode (ebl_rfl st _) _ _ _) te none le_rfl)
      tee none le_rfl
  · intro _
    exact cf_add_edge (cf_add_edge (cf_addShapedNode (cf_rfl st) (tee + 1)
      (shape_ne_circle "End If" (by decide))) te (tee + 1) none) tee (tee + 1) none

/-- Gluing for `ast_elif_tail (s2 :: rest2)` (main.py lines 130–143): the
synthetic else-wrapper build followed by the False edge and the merge. -/
theorem TailPost.ofElifTailCons {st st₂ : GState} {es te tee nid : Nat} {ndd : Bool}
    (hdummy : NodePost (tee + 1) st st₂ nid ndd) :
    TailPost tee [es, te, tee] st
      (add_edge (add_edge (addShapedNode (add_edge st₂ es (tee + 1) (some "False"))
        (nid - 1 + 1) "Process" "End If") te (nid - 1 + 1) none)
        tee (nid - 1 + 1) none) (nid - 1 + 1 + 1) ndd := by
  have hdlt := hdummy.lt
  refine ⟨by omega, ?_, ?_, ?_, ?_, ?_⟩
  · exact (hdummy.ev.weaken (by omega)).trans
      ((Evolve.add_edge st₂ es (tee + 1) (some "False")).trans
        (((Evolve.addShapedNode _ "Process" "End If" (by omega)).trans
          (Evolve.add_edge _ te (nid - 1 + 1) none)).trans
          (Evolve.add_edge _ tee (nid - 1 + 1) none)))
  · exact hasKey_addShapedNode_self _ _ _ _
  · intro hpre
    have hes : hasKey st.labels es := hpre es (by simp)
    have hte : hasKey st.labels te := hpre te (by simp)
    have htee : hasKey st.labels tee := hpre tee (by simp)
    have hc2 : EdgesClosedFrom st (add_edge st₂ es (tee + 1) (some "False")) :=
      ecf_add_edge hdummy.closure (some "False") (hdummy.ev.keys_mono es hes) hdummy.self_key
    exact ecf_add_edge (ecf_add_edge (ecf_addShapedNode hc2 (nid - 1 + 1) "Process" "End If")
      none (hasKey_addShapedNode_of _ _ _ (hdummy.ev.keys_mono te hte))
      (hasKey_addShapedNode_self _ _ _ _))
      none (hasKey_addShapedNode_of _ _ _ (hdummy.ev.keys_mono tee htee))
      (hasKey_addShapedNode_self _ _ _ _)
  · exact ebl_add_edge (ebl_add_edge (ebl_addShapedNode (ebl_add_edge
      (ebl_weaken hdummy.edges_hi (by omega)) es (some "False") (by omega)) _ _ _)
      te none le_rfl) tee none le_rfl
  · intro hnd
    exact cf_add_edge (cf_add_edge (cf_addShapedNode (cf_add_edge (hdummy.circles hnd)
      es (tee + 1) (some "False")) (nid - 1 + 1)
      (shape_ne_circle "End If" (by decide))) te (nid - 1 + 1) none) tee (nid - 1 + 1) none

/-- Gluing for the ordinary else branch of the else-branch dispatch
(main.py lines 145–161). -/
theorem TailPost.ofPlainElse {st st₃ : GState} {cid te ee : Nat} {nd : Bool}
    (hbody : ListPost (te + 1)
      (add_edge (addShapedNode st (te + 1) "Process" "Else") cid (te + 1) (some "False"))
      st₃ ee nd) :
    TailPost te [cid, te] st
      (add_edge (add_edge (addShapedNode st₃ (ee + 1) "Process" "End If") te (ee + 1) none)
        ee (ee + 1) none) (ee + 1 + 1) nd := by
  set st₂ := add_edge (addShapedNode st (te + 1) "Process" "Else") cid (te + 1) (some "False")
    with hst₂
  have hkelse : hasKey st₂.labels (te + 1) := hasKey_addShapedNode_self st (te + 1) "Process" "Else"
  have hble := hbody.le
  have hkee3 : hasKey st₃.labels ee := hbody.last_key hkelse
  have hev2 : Evolve (te + 1) st st₂ :=
    (Evolve.addShapedNode st "Process" "Else" le_rfl).trans
      (Evolve.add_edge _ cid (te + 1) (some "False"))
  refine ⟨by omega, ?_, ?_, ?_, ?_, ?_⟩
  · exact (hev2.trans (hbody.ev.weaken (by omega))).trans
      (((Evolve.addShapedNode st₃ "Process" "End If" (by omega)).trans
        (Evolve.add_edge _ te (ee + 1) none)).trans (Evolve.add_edge _ ee (ee + 1) none))
  · exact hasKey_addShapedNode_self _ _ _ _
  · intro hpre
    have hte : hasKey st.labels te := hpre te (by simp)
    have hcid : hasKey st.labels cid := hpre cid (by simp)
    have hc2 : EdgesClosedFrom st st₂ :=
      ecf_add_edge (ecf_addShapedNode (ecf_rfl st) (te + 1) "Process" "Else") (some "False")
        (hasKey_addShapedNode_of _ _ _ hcid) (hasKey_addShapedNode_self _ _ _ _)
    have hc3 : EdgesClosedFrom st st₃ := ecf_trans hc2 (hbody.closure hkelse) hbody.ev.keys_mono
    have hkte3 : hasKey st₃.labels te :=
      hbody.ev.keys_mono te (hev2.keys_mono te hte)
    exact ecf_add_edge (ecf_add_edge (ecf_addShapedNode hc3 (ee + 1) "Process" "End If")
      none (hasKey_addShapedNode_of _ _ _ hkte3) (hasKey_addShapedNode_self _ _ _ _))
      none (hasKey_addShapedNode_of _ _ _ hkee3) (hasKey_addShapedNode_self _ _ _ _)
  · have hb2 : EdgesBelow st st₂ (ee + 1) :=
      ebl_add_edge (ebl_addShapedNode (ebl_rfl st _) _ _ _) cid (some "False") (by omega)
    exact ebl_add_edge (ebl_add_edge (ebl_addShapedNode
      (ebl_trans hb2 (ebl_weaken hbody.edges_hi (by omega))) _ _ _) te none le_rfl)
      ee none le_rfl
  · intro hnd
    have hc2 : CirclesFrom st st₂ :=
      cf_add_edge (cf_addShapedNode (cf_rfl st) (te + 1)
        (shape_ne_circle "Else" (by decide))) cid (te + 1) (some "False")
    exact cf_add_edge (cf_add_edge (cf_addShapedNode (cf_trans hc2 (hbody.circles hnd))
      (ee + 1) (shape_ne_circle "End If" (by decide))) te (ee + 1) none) ee (ee + 1) none

/-! ## The master invariant, by strong induction on the builder's
termination measure -/

/-- Conjunction of the invariants of the six mutually recursive functions,
for calls whose termination measure is at most `N`. -/
def MasterP (N : Nat) : Prop :=
  (∀ t b o id st st' n, 2 + 3 * stmtListSize b + 3 * stmtListSize o ≤ N →
     ast_to_mermaid_if t b o id st = some (st', n) →
     NodePost id st st' n (stmtsNoDef b && stmtsNoDef o)) ∧
  (∀ o cid te st st' n, 1 + 3 * stmtListSize o ≤ N →
     ast_if_orelse o cid te st = some (st', n) →
     TailPost te [cid, te] st st' n (stmtsNoDef o)) ∧
  (∀ o es te tee st st' n, 6 + 3 * stmtListSize o ≤ N →
     ast_elif_tail o es te tee st = some (st', n) →
     TailPost tee [es, te, tee] st st' n (stmtsNoDef o)) ∧
  (∀ tg it b id st st' n, 2 + 3 * stmtListSize b ≤ N →
     ast_to_mermaid_for tg it b id st = some (st', n) →
     NodePost id st st' n (stmtsNoDef b)) ∧
  (∀ t b id st st' n, 2 + 3 * stmtListSize b ≤ N →
     ast_to_mermaid_while t b id st = some (st', n) →
     NodePost id st st' n (stmtsNoDef b)) ∧
  (∀ l last st st' last', 3 * stmtListSize l ≤ N →
     process_stmt_list l last st = some (st', last') →
     ListPost last st st' last' (stmtsNoDef l))

theorem master (N : Nat) : MasterP N := by
  induction N using Nat.strong_induction_on with
  | _ N IH =>
  refine ⟨?_, ?_, ?_, ?_, ?_, ?_⟩
  · -- ast_to_mermaid_if
    intro t b o id st st' n hN h
    simp only [ast_to_mermaid_if] at h
    split at h
    · exact absurd h (by simp)
    · rename_i st₃ te heq
      have hbody := (IH (3 * stmtListSize b) (by omega)).2.2.2.2.2 b (id + 1) _ st₃ te
        le_rfl heq
      have horelse := (IH (1 + 3 * stmtListSize o) (by omega)).2.1 o id te st₃ st' n
        le_rfl h
      exact NodePost.ofIfHead _ hbody horelse
  · -- ast_if_orelse
    intro o cid te st st' n hN h
    cases o with
    | nil =>
      simp only [ast_if_orelse, Option.some.injEq, Prod.mk.injEq] at h
      obtain ⟨rfl, rfl⟩ := h
      exact TailPost.ofNoElse st cid te _
    | cons s1 rest1 =>
      simp only [stmtListSize, stmtSize] at hN
      cases s1 with
      | ifStmt t2 b2 o2 =>
        cases rest1 with
        | nil =>
          -- elif case
          simp only [stmtListSize, stmtSize] at hN
          simp only [ast_if_orelse] at h
          split at h
          · exact absurd h (by simp)
          · rename_i etxt hunp
            split at h
            · exact absurd h (by simp)
            · rename_i st₃ tee heq
              have hbody := (IH (3 * stmtListSize b2) (by omega)).2.2.2.2.2 b2 (te + 1 + 1) _
                st₃ tee le_rfl heq
              have htail := (IH (6 + 3 * stmtListSize o2) (by omega)).2.2.1 o2 (te + 1) te tee
                st₃ st' n le_rfl h
              have hres := TailPost.ofElifHead ("Elif: " ++ etxt) hbody htail
              have hnd : stmtsNoDef [Stmt.ifStmt t2 b2 o2] = (stmtsNoDef b2 && stmtsNoDef o2) := by
                simp [stmtsNoDef, stmtNoDef]
              rw [hnd]
              exact hres
        | cons s2 rest2 =>
          simp only [ast_if_orelse] at h
          split at h
          · exact absurd h (by simp)
          · rename_i st₃ ee heq
            simp only [Option.some.injEq, Prod.mk.injEq] at h
            obtain ⟨rfl, rfl⟩ := h
            have hbody := (IH (3 * stmtListSize (Stmt.ifStmt t2 b2 o2 :: s2 :: rest2))
              (by simp only [stmtListSize, stmtSize] at hN ⊢; omega)).2.2.2.2.2 _ (te + 1) _ st₃ ee
              le_rfl heq
            exact TailPost.ofPlainElse hbody
      | forStmt tg2 it2 b2 =>
        simp only [ast_if_orelse] at h
        split at h
        · exact absurd h (by simp)
        · rename_i st₃ ee heq
          simp only [Option.some.injEq, Prod.mk.injEq] at h
          obtain ⟨rfl, rfl⟩ := h
          have hbody := (IH (3 * stmtListSize (Stmt.forStmt tg2 it2 b2 :: rest1))
            (by simp only [stmtListSize, stmtSize] at hN ⊢; omega)).2.2.2.2.2 _ (te + 1) _ st₃ ee
            le_rfl heq
          exact TailPost.ofPlainElse hbody
      | whileStmt t2 b2 =>
        simp only [ast_if_orelse] at h
        split at h
        · exact absurd h (by simp)
        · rename_i st₃ ee heq
          simp only [Option.some.injEq, Prod.mk.injEq] at h
          obtain ⟨rfl, rfl⟩ := h
          have hbody := (IH (3 * stmtListSize (Stmt.whileStmt t2 b2 :: rest1))
            (by simp only [stmtListSize, stmtSize] at hN ⊢; omega)).2.2.2.2.2 _ (te + 1) _ st₃ ee
            le_rfl heq
          exact TailPost.ofPlainElse hbody
      | simple tn r =>
        simp only [ast_if_orelse] at h
        split at h
        · exact absurd h (by simp)
        · rename_i st₃ ee heq
          simp only [Option.some.injEq, Prod.mk.injEq] at h
          obtain ⟨rfl, rfl⟩ := h
          have hbody := (IH (3 * stmtListSize (Stmt.simple tn r :: rest1))
            (by simp only [stmtListSize, stmtSize] at hN ⊢; omega)).2.2.2.2.2 _ (te + 1) _ st₃ ee
            le_rfl heq
          exact TailPost.ofPlainElse hbody
  · -- ast_elif_tail
    intro o es te tee st st' n hN h
    cases o with
    | nil =>
      simp only [ast_elif_tail, Option.some.injEq, Prod.mk.injEq] at h
      obtain ⟨rfl, rfl⟩ := h
      exact TailPost.ofElifTailNil st es te tee _
    | cons s2 rest2 =>
      simp only [ast_elif_tail] at h
      split at h
      · exact absurd h (by simp)
      · rename_i st₂ nid heq
        simp only [Option.some.injEq, Prod.mk.injEq] at h
        obtain ⟨rfl, rfl⟩ := h
        have hdummy := (IH (2 + 3 * stmtListSize (s2 :: rest2) + 3 * stmtListSize [])
          (by simp only [stmtListSize, stmtSize] at hN ⊢; omega)).1 .constantTrue (s2 :: rest2) []
          (tee + 1) st st₂ nid le_rfl heq
        rw [show stmtsNoDef [] = true from rfl, Bool.and_true] at hdummy
        exact TailPost.ofElifTailCons hdummy
  · -- ast_to_mermaid_for
    intro tg it b id st st' n hN h
    simp only [ast_to_mermaid_for] at h
    split at h
    · exact absurd h (by simp)
    · rename_i st₃ last heq
      simp only [Option.some.injEq, Prod.mk.injEq] at h
      obtain ⟨rfl, rfl⟩ := h
      have hbody := (IH (3 * stmtListSize b) (by omega)).2.2.2.2.2 b (id + 1) _ st₃ last
        le_rfl heq
      exact NodePost.ofLoopParts "For" _ "Next Iteration" (by decide) hbody
  · -- ast_to_mermaid_while
    intro t b id st st' n hN h
    simp only [ast_to_mermaid_while] at h
    split at h
    · exact absurd h (by simp)
    · rename_i st₃ last heq
      simp only [Option.some.injEq, Prod.mk.injEq] at h
      obtain ⟨rfl, rfl⟩ := h
      have hbody := (IH (3 * stmtListSize b) (by omega)).2.2.2.2.2 b (id + 1) _ st₃ last
        le_rfl heq
      exact NodePost.ofLoopParts "While" _ "Repeat" (by decide) hbody
  · -- process_stmt_list
    intro l last st st' last' hN h
    cases l with
    | nil =>
      simp only [process_stmt_list, Option.some.injEq, Prod.mk.injEq] at h
      obtain ⟨rfl, rfl⟩ := h
      exact ⟨le_rfl, Evolve.rfl _ _, fun hk => hk, fun _ => ecf_rfl _, ebl_rfl _ _,
        fun _ => cf_rfl _⟩
    | cons s rest =>
      simp only [stmtListSize, stmtSize] at hN
      cases s with
      | simple tn render =>
        simp only [process_stmt_list] at h
        have hrest := (IH (3 * stmtListSize rest) (by omega)).2.2.2.2.2 rest (last + 1)
          _ st' last' le_rfl h
        by_cases hdef : tn = "FunctionDef"
        · -- a nested function definition: the no-def flag is false, so the
          -- circles clause is vacuous and the rest goes through as usual
          refine ⟨?_, ?_, ?_, ?_, ?_, ?_⟩
          · have := hrest.le; omega
          · exact ((Evolve.addShapedNode st tn (render.getD tn) le_rfl).trans
              (Evolve.add_edge _ last (last + 1) none)).trans (hrest.ev.weaken (by omega))
          · intro _
            exact hrest.last_key (hasKey_addShapedNode_self st (last + 1) tn (render.getD tn))
          · intro hk
            refine ecf_trans (ecf_add_edge (ecf_addShapedNode (ecf_rfl st) (last + 1) tn
              (render.getD tn)) none (hasKey_addShapedNode_of _ _ _ hk)
              (hasKey_addShapedNode_self _ _ _ _))
              (hrest.closure (hasKey_addShapedNode_self _ _ _ _)) hrest.ev.keys_mono
          · exact ebl_trans (ebl_weaken (ebl_add_edge (ebl_addShapedNode (ebl_rfl st _) _ _ _)
              last none le_rfl) hrest.le) hrest.edges_hi
          · intro hc
            exfalso
            simp [stmtsNoDef, stmtNoDef, hdef] at hc
        · have hres := ListPost.ofSimple tn (render.getD tn) hrest hdef
          have hnd : stmtsNoDef (Stmt.simple tn render :: rest) = stmtsNoDef rest := by
            simp [stmtsNoDef, stmtNoDef, hdef]
          rw [hnd]
          exact hres
      | ifStmt t b o =>
        simp only [process_stmt_list] at h
        split at h
        · exact absurd h (by simp)
        · rename_i st₂ ns heq
          have hnp := (IH (2 + 3 * stmtListSize b + 3 * stmtListSize o)
            (by simp only [stmtListSize, stmtSize] at hN ⊢; omega)).1 t b o (last + 1) st st₂ ns
            le_rfl heq
          have hrest := (IH (3 * stmtListSize rest) (by omega)).2.2.2.2.2 rest (ns - 1)
            _ st' last' le_rfl h
          have hres := ListPost.ofCompound hnp hrest
          have hnd : stmtsNoDef (Stmt.ifStmt t b o :: rest) =
              ((stmtsNoDef b && stmtsNoDef o) && stmtsNoDef rest) := by
            simp [stmtsNoDef, stmtNoDef]
          rw [hnd]
          exact hres
      | forStmt tg it b =>
        simp only [process_stmt_list] at h
        split at h
        · exact absurd h (by simp)
        · rename_i st₂ ns heq
          have hnp := (IH (2 + 3 * stmtListSize b)
            (by simp only [stmtListSize, stmtSize] at hN ⊢; omega)).2.2.2.1 tg it b (last + 1)
            st st₂ ns le_rfl heq
          have hrest := (IH (3 * stmtListSize rest) (by omega)).2.2.2.2.2 rest (ns - 1)
            _ st' last' le_rfl h
          have hres := ListPost.ofCompound hnp hrest
          have hnd : stmtsNoDef (Stmt.forStmt tg it b :: rest) =
              (stmtsNoDef b && stmtsNoDef rest) := by
            simp [stmtsNoDef, stmtNoDef]
          rw [hnd]
          exact hres
      | whileStmt t b =>
        simp only [process_stmt_list] at h
        split at h
        · exact absurd h (by simp)
        · rename_i st₂ ns heq
          have hnp := (IH (2 + 3 * stmtListSize b)
            (by simp only [stmtListSize, stmtSize] at hN ⊢; omega)).2.2.2.2.1 t b (last + 1)
            st st₂ ns le_rfl heq
          have hrest := (IH (3 * stmtListSize rest) (by omega)).2.2.2.2.2 rest (ns - 1)
            _ st' last' le_rfl h
          have hres := ListPost.ofCompound hnp hrest
          have hnd : stmtsNoDef (Stmt.whileStmt t b :: rest) =
              (stmtsNoDef b && stmtsNoDef rest) := by
            simp [stmtsNoDef, stmtNoDef]
          rw [hnd]
          exact hres

/-- The invariant of `ast_to_mermaid_if`, instantiated. -/
theorem ast_to_mermaid_if_post {t : PyExpr} {b o : List Stmt} {id : Nat} {st st' : GState}
    {n : Nat} (h : ast_to_mermaid_if t b o id st = some (st', n)) :
    NodePost id st st' n (stmtsNoDef b && stmtsNoDef o) :=
  (master _).1 t b o id st st' n le_rfl h

/-- The invariant of `ast_if_orelse`, instantiated. -/
theorem ast_if_orelse_post {o : List Stmt} {cid te : Nat} {st st' : GState} {n : Nat}
    (h : ast_if_orelse o cid te st = some (st', n)) :
    TailPost te [cid, te] st st' n (stmtsNoDef o) :=
  (master _).2.1 o cid te st st' n le_rfl h

/-- The invariant of `ast_elif_tail`, instantiated. -/
theorem ast_elif_tail_post {o : List Stmt} {es te tee : Nat} {st st' : GState} {n : Nat}
    (h : ast_elif_tail o es te tee st = some (st', n)) :
    TailPost tee [es, te, tee] st st' n (stmtsNoDef o) :=
  (master _).2.2.1 o es te tee st st' n le_rfl h

/-- The invariant of `ast_to_mermaid_for`, instantiated. -/
theorem ast_to_mermaid_for_post {tg it : PyExpr} {b : List Stmt} {id : Nat} {st st' : GState}
    {n : Nat} (h : ast_to_mermaid_for tg it b id st = some (st', n)) :
    NodePost id st st' n (stmtsNoDef b) :=
  (master _).2.2.2.1 tg it b id st st' n le_rfl h

/-- The invariant of `ast_to_mermaid_while`, instantiated. -/
theorem ast_to_mermaid_while_post {t : PyExpr} {b : List Stmt} {id : Nat} {st st' : GState}
    {n : Nat} (h : ast_to_mermaid_while t b id st = some (st', n)) :
    NodePost id st st' n (stmtsNoDef b) :=
  (master _).2.2.2.2.1 t b id st st' n le_rfl h

/-- The invariant of `process_stmt_list`, instantiated. -/
theorem process_stmt_list_post {l : List Stmt} {last : Nat} {st st' : GState} {last' : Nat}
    (h : process_stmt_list l last st = some (st', last')) :
    ListPost last st st' last' (stmtsNoDef l) :=
  (master _).2.2.2.2.2 l last st st' last' le_rfl h

/-- The `ast.If` handler labels its own decision node with
`If: {rendered test}` (fallback `condition`) and shape `diamond`, and that
entry survives the rest of the handler's writes. -/
theorem if_decision_label {t : PyExpr} {b o : List Stmt} {id : Nat} {st st' : GState} {n : Nat}
    (h : ast_to_mermaid_if t b o id st = some (st', n)) :
    dictGet st'.labels id = some (escape_label ("If: " ++ (PyExpr.unparse t).getD "condition")) ∧
    dictGet st'.shapes id = some "diamond" := by
  simp only [ast_to_mermaid_if] at h
  split at h
  · exact absurd h (by simp)
  · rename_i st₃ te heq
    have hbody := process_stmt_list_post heq
    have htail := ast_if_orelse_post h
    have hble := hbody.le
    constructor
    · rw [htail.ev.labels_lo id (by omega), hbody.ev.labels_lo id (by omega)]
      show dictGet (dictSet (dictSet st.labels id _) (id + 1) _) id = _
      rw [dictGet_set_ne _ _ _ _ (by omega), dictGet_set_self]
      simp [shape_label]
    · rw [htail.ev.shapes_lo id (by omega), hbody.ev.shapes_lo id (by omega)]
      show dictGet (dictSet (dictSet st.shapes id _) (id + 1) _) id = _
      rw [dictGet_set_ne _ _ _ _ (by omega), dictGet_set_self]
      simp [shape_label]

/-- On a list of simple statements the sequence composer processes every
statement — returns included — producing one node and one chaining edge per
statement: the result is the full chain `last → last+1 → … → last+len`. -/
theorem chain_lemma : ∀ (l : List Stmt) (last : Nat) (st : GState), stmtsAllSimple l = true →
    ∃ st', process_stmt_list l last st = some (st', last + l.length) ∧
      st'.edges = st.edges ++
        (List.range l.length).map (fun i => ⟨last + i, last + i + 1, none⟩) ∧
      (∀ k, hasKey st'.labels k → hasKey st.labels k ∨ (last + 1 ≤ k ∧ k ≤ last + l.length)) ∧
      (∀ i, i < l.length → hasKey st'.labels (last + 1 + i)) := by
  intro l
  induction l with
  | nil =>
    intro last st _
    refine ⟨st, by simp [process_stmt_list], by simp, fun k hk => Or.inl hk, by simp⟩
  | cons s rest ih =>
    intro last st hAS
    cases s with
    | ifStmt t b o => simp [stmtsAllSimple, stmtIsSimple] at hAS
    | forStmt tg it b => simp [stmtsAllSimple, stmtIsSimple] at hAS
    | whileStmt t b => simp [stmtsAllSimple, stmtIsSimple] at hAS
    | simple tn r =>
      have hASr : stmtsAllSimple rest = true := by
        simpa [stmtsAllSimple, stmtIsSimple] using hAS
      set st₂ := add_edge (addShapedNode st (last + 1) tn (r.getD tn)) last (last + 1) none
        with hst₂
      obtain ⟨st', hproc, hedges, hkeys, hkeysi⟩ := ih (last + 1) st₂ hASr
      have hkey2 : hasKey st₂.labels (last + 1) :=
        hasKey_addShapedNode_self st (last + 1) tn (r.getD tn)
      refine ⟨st', ?_, ?_, ?_, ?_⟩
      · simp only [process_stmt_list, List.length_cons]
        rw [show last + (rest.length + 1) = last + 1 + rest.length from by omega]
        exact hproc
      · rw [hedges, hst₂, edges_add_edge, edges_addShapedNode, List.length_cons,
          List.range_succ_eq_map, List.map_cons, List.map_map, List.append_assoc]
        simp only [List.singleton_append, List.cons.injEq, Nat.add_zero, true_and, and_true]
        congr 1
        congr 1
        refine List.map_congr_left fun i _ => ?_
        have h1 : last + 1 + i = last + Nat.succ i := by omega
        simp [Function.comp_apply, h1]
      · intro k hk
        rcases hkeys k hk with hk2 | hik
        · rw [hst₂, labels_add_edge, labels_addShapedNode, hasKey_set] at hk2
          rcases hk2 with rfl | hk0
          · right; simp
          · left; exact hk0
        · right; simp only [List.length_cons]; omega
      · intro i hi
        cases i with
        | zero =>
          have := (process_stmt_list_post hproc).ev.keys_mono (last + 1) hkey2
          simpa using this
        | succ j =>
          have hj : j < rest.length := by simpa using hi
          have := hkeysi j hj
          rw [show last + 1 + (j + 1) = last + 1 + 1 + j from by omega]
          exact this

/-! ## The label sanitizer's character-level behavior -/

/-- A character of `replaceChar old new l` comes from `new` or is a
character of `l` other than `old`. -/
theorem mem_replaceChar {c old : Char} {new l : List Char}
    (h : c ∈ replaceChar old new l) : c ∈ new ∨ (c ∈ l ∧ c ≠ old) := by
  induction l with
  | nil => simp [replaceChar] at h
  | cons a rest ih =>
    simp only [replaceChar, List.mem_append] at h
    rcases h with h | h
    · by_cases hao : a = old
      · rw [if_pos hao] at h
        exact Or.inl h
      · rw [if_neg hao] at h
        simp only [List.mem_singleton] at h
        subst h
        exact Or.inr ⟨by simp, hao⟩
    · rcases ih h with h | ⟨h1, h2⟩
      · exact Or.inl h
      · exact Or.inr ⟨by simp [h1], h2⟩

/-- No double quote ever survives into or is created by `escape_label`. -/
theorem escape_label_no_quote_mem (s : String) (h : '"' ∈ (escape_label s).data) : False := by
  unfold escape_label at h
  rcases mem_replaceChar h with h1 | ⟨h2, _⟩
  · exact absurd h1 (by decide)
  · rcases mem_replaceChar h2 with h3 | ⟨_, h4⟩
    · exact absurd h3 (by decide)
    · exact h4 rfl

/-! ## Claim C5 -/

/-- Claim C5, counterexample: `escape_label` is not idempotent — on input
`"&"` one application yields `"&amp;"` and a second yields `"&amp;amp;"` —
and its output can contain a pipe and a newline, which it passes through
unchanged.  This falsifies the claim as stated. -/
theorem claim5_counterexample :
    escape_label (escape_label "&") ≠ escape_label "&" ∧
    (escape_label "|").data.contains '|' = true ∧
    (escape_label "\n").data.contains '\n' = true := by
  decide

/-- Claim C5, amended: the sanitizer is total and never produces a double
quote (double quotes become apostrophes and no replacement introduces one),
but it is not idempotent (ampersand escaping doubles on reapplication), and
pipe and newline characters pass through unchanged, so they can appear in
its output. -/
theorem claim5_sanitizer_amended :
    (∀ s : String, ((escape_label s).data.contains '"') = false) ∧
    escape_label "|" = "|" ∧ escape_label "\n" = "\n" := by
  refine ⟨?_, by decide, by decide⟩
  intro s
  cases hc : (escape_label s).data.contains '"' with
  | false => rfl
  | true =>
    exact absurd (List.mem_of_elem_eq_true hc) (fun hm => escape_label_no_quote_mem s hm)

/-! ## Claim C6 -/

/-- Claim C6: the build is NOT total.  When the test expression of an elif
cannot be re-rendered (`ast.unparse` raises), the unguarded call at main.py
line 114 propagates the exception and the whole build aborts instead of
degrading to a generic label: on this input the builder returns `none`.
Every other rendering failure in the same input is recovered (the guarded
sites fall back to `"condition"` / the statement's class name), which shows
line 114 is the one deviating call site. -/
theorem claim6_elif_unparse_crash :
    buildFunction "f" [.ifStmt (.srcExpr (some "a > 0")) [.simple "Return" (some "return 1")]
      [.ifStmt (.srcExpr none) [.simple "Return" (some "return 2")] []]] = none := by
  simp [buildFunction, ast_to_mermaid_fn, process_stmt_list, ast_to_mermaid_if, ast_if_orelse,
    PyExpr.unparse]

/-! ## Claim C1 -/

/-- Claim C1, counterexample: composition does not stop at a return
statement.  In the body `[return 1; x = 2]` the assignment after the return
is still dispatched: it contributes node `2` labeled `x = 2` and the edge
`1 → 2` to the built graph. -/
theorem claim1_counterexample :
    buildFunction "f" [.simple "Return" (some "return 1"), .simple "Assign" (some "x = 2")] =
      some (⟨[⟨0, 1, none⟩, ⟨1, 2, none⟩],
        [(0, "Function: f"), (1, "return 1"), (2, "x = 2")],
        [(0, "circle"), (1, "rect"), (2, "rect")]⟩, 3) ∧
    dictGet [(0, "Function: f"), (1, "return 1"), (2, "x = 2")] 2 = some "x = 2" ∧
    (⟨1, 2, none⟩ : Edge) ∈ [(⟨0, 1, none⟩ : Edge), ⟨1, 2, none⟩] := by
  refine ⟨?_, by decide, by decide⟩
  simp [buildFunction, ast_to_mermaid_fn, process_stmt_list, addShapedNode, add_edge,
    shape_label, escape_label, replaceChar, dictSet, dictGet]

/-- Claim C1, amended: the sequence composer has no early stop and no
terminal flag.  On any list of simple statements (returns included,
wherever they occur) it dispatches every statement, adding exactly one node
and one chaining edge per statement: statements after a return are still
present in the node and edge output. -/
theorem claim1_no_terminal_stop (l : List Stmt) (last : Nat) (st : GState)
    (hAS : stmtsAllSimple l = true) :
    ∃ st', process_stmt_list l last st = some (st', last + l.length) ∧
      st'.edges.length = st.edges.length + l.length ∧
      ∀ i, i < l.length → hasKey st'.labels (last + 1 + i) := by
  obtain ⟨st', hproc, hedges, _, hkeysi⟩ := chain_lemma l last st hAS
  exact ⟨st', hproc, by simp [hedges], hkeysi⟩

/-- Witness for the amended C1 at the body `[return 1; x = 2]`. -/
theorem claim1_no_terminal_stop_witness :
    stmtsAllSimple [Stmt.simple "Return" (some "return 1"),
      Stmt.simple "Assign" (some "x = 2")] = true ∧
    ∃ st', process_stmt_list [Stmt.simple "Return" (some "return 1"),
        Stmt.simple "Assign" (some "x = 2")] 0 ⟨[], [], []⟩ = some (st', 0 + 2) ∧
      st'.edges.length = 0 + 2 ∧
      ∀ i, i < 2 → hasKey st'.labels (0 + 1 + i) := by
  refine ⟨by decide, ?_⟩
  have h := claim1_no_terminal_stop [Stmt.simple "Return" (some "return 1"),
    Stmt.simple "Assign" (some "x = 2")] 0 ⟨[], [], []⟩ (by decide)
  simpa using h

/-! ## Claim C2 -/

/-- The common final shape of every else-carrying branch of the `If`
handler: an "End If" merge node at `m + 1` with two incoming edges. -/
theorem merge_pair_post (st₄ : GState) (a b m : Nat) (h : a < b) :
    dictGet (add_edge (add_edge (addShapedNode st₄ (m + 1) "Process" "End If") a (m + 1) none)
      b (m + 1) none).labels (m + 1) = some "End If" ∧
    ∃ x y, x < y ∧
      (⟨x, m + 1, none⟩ : Edge) ∈ (add_edge (add_edge (addShapedNode st₄ (m + 1) "Process"
        "End If") a (m + 1) none) b (m + 1) none).edges ∧
      (⟨y, m + 1, none⟩ : Edge) ∈ (add_edge (add_edge (addShapedNode st₄ (m + 1) "Process"
        "End If") a (m + 1) none) b (m + 1) none).edges := by
  constructor
  · show dictGet (dictSet st₄.labels (m + 1) _) (m + 1) = _
    rw [dictGet_set_self]
    decide
  · exact ⟨a, b, h, by simp [add_edge, edges_addShapedNode], by simp [add_edge,
      edges_addShapedNode]⟩

/-- Claim C2, counterexample: a conditional whose then- and else-branches
both end in a return still gets a merge node.  For `if a: return 1 else:
return 2` the build contains the "End If" node `6` and the edges `3 → 6`
and `5 → 6` out of the two return nodes, and the fragment continues there
(the chain edge `0 → 6` attaches to it). -/
theorem claim2_counterexample :
    buildFunction "f" [.ifStmt (.srcExpr (some "a")) [.simple "Return" (some "return 1")]
        [.simple "Return" (some "return 2")]] =
      some (⟨[⟨1, 2, some "True"⟩, ⟨2, 3, none⟩, ⟨1, 4, some "False"⟩, ⟨4, 5, none⟩,
        ⟨3, 6, none⟩, ⟨5, 6, none⟩, ⟨0, 6, none⟩],
        [(0, "Function: f"), (1, "If: a"), (2, "Then"), (3, "return 1"), (4, "Else"),
         (5, "return 2"), (6, "End If")],
        [(0, "circle"), (1, "diamond"), (2, "rect"), (3, "rect"), (4, "rect"), (5, "rect"),
         (6, "rect")]⟩, 7) ∧
    dictGet [(0, "Function: f"), (1, "If: a"), (2, "Then"), (3, "return 1"), (4, "Else"),
      (5, "return 2"), (6, "End If")] 3 = some "return 1" ∧
    dictGet [(0, "Function: f"), (1, "If: a"), (2, "Then"), (3, "return 1"), (4, "Else"),
      (5, "return 2"), (6, "End If")] 5 = some "return 2" := by
  refine ⟨?_, by decide, by decide⟩
  simp [buildFunction, ast_to_mermaid_fn, process_stmt_list, ast_to_mermaid_if, ast_if_orelse,
    addShapedNode, add_edge, shape_label, escape_label, replaceChar, dictSet, dictGet,
    PyExpr.unparse]

/-- Claim C2, amended: every conditional with an else-branch — whatever the
branches contain, returns included — creates an "End If" merge node (the id
just below the returned next id) with incoming edges from the ends of both
branches; there is no terminal tracking that could suppress it. -/
theorem claim2_merge_always_created (t : PyExpr) (b o : List Stmt) (id : Nat) (st st' : GState)
    (n : Nat) (h : ast_to_mermaid_if t b o id st = some (st', n)) (ho : o ≠ []) :
    dictGet st'.labels (n - 1) = some "End If" ∧
    ∃ x y, x < y ∧ (⟨x, n - 1, none⟩ : Edge) ∈ st'.edges ∧
      (⟨y, n - 1, none⟩ : Edge) ∈ st'.edges := by
  simp only [ast_to_mermaid_if] at h
  split at h
  · exact absurd h (by simp)
  · rename_i st₃ te heq
    cases o with
    | nil => exact absurd rfl ho
    | cons s1 rest1 =>
      cases s1 with
      | ifStmt t2 b2 o2 =>
        cases rest1 with
        | nil =>
          simp only [ast_if_orelse] at h
          split at h
          · exact absurd h (by simp)
          · rename_i etxt hunp
            split at h
            · exact absurd h (by simp)
            · rename_i st₄ tee heq2
              have hlt : te < tee := by
                have := (process_stmt_list_post heq2).le; omega
              cases o2 with
              | nil =>
                simp only [ast_elif_tail, Option.some.injEq, Prod.mk.injEq] at h
                obtain ⟨rfl, rfl⟩ := h
                exact merge_pair_post _ te tee tee hlt
              | cons s2 rest2 =>
                simp only [ast_elif_tail] at h
                split at h
                · exact absurd h (by simp)
                · rename_i st₅ nid heq3
                  simp only [Option.some.injEq, Prod.mk.injEq] at h
                  obtain ⟨rfl, rfl⟩ := h
                  exact merge_pair_post _ te tee (nid - 1) hlt
        | cons s2 rest2 =>
          simp only [ast_if_orelse] at h
          split at h
          · exact absurd h (by simp)
          · rename_i st₄ ee heq2
            simp only [Option.some.injEq, Prod.mk.injEq] at h
            obtain ⟨rfl, rfl⟩ := h
            exact merge_pair_post _ te ee ee
              (by have := (process_stmt_list_post heq2).le; omega)
      | forStmt tg2 it2 b2 =>
        simp only [ast_if_orelse] at h
        split at h
        · exact absurd h (by simp)
        · rename_i st₄ ee heq2
          simp only [Option.some.injEq, Prod.mk.injEq] at h
          obtain ⟨rfl, rfl⟩ := h
          exact merge_pair_post _ te ee ee
            (by have := (process_stmt_list_post heq2).le; omega)
      | whileStmt t2 b2 =>
        simp only [ast_if_orelse] at h
        split at h
        · exact absurd h (by simp)
        · rename_i st₄ ee heq2
          simp only [Option.some.injEq, Prod.mk.injEq] at h
          obtain ⟨rfl, rfl⟩ := h
          exact merge_pair_post _ te ee ee
            (by have := (process_stmt_list_post heq2).le; omega)
      | simple tn r =>
        simp only [ast_if_orelse] at h
        split at h
        · exact absurd h (by simp)
        · rename_i st₄ ee heq2
          simp only [Option.some.injEq, Prod.mk.injEq] at h
          obtain ⟨rfl, rfl⟩ := h
          exact merge_pair_post _ te ee ee
            (by have := (process_stmt_list_post heq2).le; omega)

/-- Witness for the amended C2 at `if a: t() else: e()`. -/
theorem claim2_merge_always_created_witness :
    dictGet [(0, "If: a"), (1, "Then"), (2, "t()"), (3, "Else"), (4, "e()"), (5, "End If")] 5 =
      some "End If" ∧
    ∃ x y, x < y ∧
      (⟨x, 5, none⟩ : Edge) ∈ [(⟨0, 1, some "True"⟩ : Edge), ⟨1, 2, none⟩,
        ⟨0, 3, some "False"⟩, ⟨3, 4, none⟩, ⟨2, 5, none⟩, ⟨4, 5, none⟩] ∧
      (⟨y, 5, none⟩ : Edge) ∈ [(⟨0, 1, some "True"⟩ : Edge), ⟨1, 2, none⟩,
        ⟨0, 3, some "False"⟩, ⟨3, 4, none⟩, ⟨2, 5, none⟩, ⟨4, 5, none⟩] := by
  have h := claim2_merge_always_created (.srcExpr (some "a")) [.simple "Expr" (some "t()")]
    [.simple "Expr" (some "e()")] 0 ⟨[], [], []⟩
    (⟨[⟨0, 1, some "True"⟩, ⟨1, 2, none⟩, ⟨0, 3, some "False"⟩, ⟨3, 4, none⟩,
      ⟨2, 5, none⟩, ⟨4, 5, none⟩],
      [(0, "If: a"), (1, "Then"), (2, "t()"), (3, "Else"), (4, "e()"), (5, "End If")],
      [(0, "diamond"), (1, "rect"), (2, "rect"), (3, "rect"), (4, "rect"), (5, "rect")]⟩) 6
    (by simp [ast_to_mermaid_if, ast_if_orelse, process_stmt_list, addShapedNode, add_edge,
      shape_label, escape_label, replaceChar, dictSet, dictGet, PyExpr.unparse])
    (by simp)
  simpa using h

/-! ## Claim C3 -/

/-- Claim C3, counterexample: the back-edge is created unconditionally.
For `for i in range(n): return 1` — a body that always returns — the build
still contains the back-edge `3 → 1` labeled "Next Iteration". -/
theorem claim3_counterexample :
    buildFunction "f" [.forStmt (.srcExpr (some "i")) (.srcExpr (some "range(n)"))
        [.simple "Return" (some "return 1")]] =
      some (⟨[⟨1, 2, some "True"⟩, ⟨2, 3, none⟩, ⟨3, 1, some "Next Iteration"⟩,
        ⟨1, 4, some "False"⟩, ⟨0, 4, none⟩],
        [(0, "Function: f"), (1, "For: i in range(n)"), (2, "Body"), (3, "return 1"),
         (4, "After Loop")],
        [(0, "circle"), (1, "diamond"), (2, "rect"), (3, "rect"), (4, "rect")]⟩, 5) ∧
    dictGet [(0, "Function: f"), (1, "For: i in range(n)"), (2, "Body"), (3, "return 1"),
      (4, "After Loop")] 3 = some "return 1" := by
  refine ⟨?_, by decide⟩
  simp [buildFunction, ast_to_mermaid_fn, process_stmt_list, ast_to_mermaid_for, addShapedNode,
    add_edge, shape_label, escape_label, replaceChar, dictSet, dictGet, PyExpr.unparse]

/-- Claim C3, amended: both loop handlers always create exactly the one
back-edge from the body's final node (`n - 2`, the id just below the
"After Loop" node) to the loop header, labeled "Next Iteration" for a
counted loop and "Repeat" for a conditional loop — regardless of whether
the body returns.  No condition on the body can suppress it. -/
theorem claim3_back_edge_unconditional :
    (∀ tg it b id st st' n, ast_to_mermaid_for tg it b id st = some (st', n) →
      (⟨n - 2, id, some "Next Iteration"⟩ : Edge) ∈ st'.edges) ∧
    (∀ t b id st st' n, ast_to_mermaid_while t b id st = some (st', n) →
      (⟨n - 2, id, some "Repeat"⟩ : Edge) ∈ st'.edges) := by
  constructor
  · intro tg it b id st st' n h
    simp only [ast_to_mermaid_for] at h
    split at h
    · exact absurd h (by simp)
    · rename_i st₃ last heq
      simp only [Option.some.injEq, Prod.mk.injEq] at h
      obtain ⟨rfl, rfl⟩ := h
      simp [add_edge, edges_addShapedNode]
  · intro t b id st st' n h
    simp only [ast_to_mermaid_while] at h
    split at h
    · exact absurd h (by simp)
    · rename_i st₃ last heq
      simp only [Option.some.injEq, Prod.mk.injEq] at h
      obtain ⟨rfl, rfl⟩ := h
      simp [add_edge, edges_addShapedNode]

/-- Witness for the amended C3 at `for i in xs: f()` and `while c: f()`. -/
theorem claim3_back_edge_unconditional_witness :
    (⟨2, 0, some "Next Iteration"⟩ : Edge) ∈ [(⟨0, 1, some "True"⟩ : Edge), ⟨1, 2, none⟩,
      ⟨2, 0, some "Next Iteration"⟩, ⟨0, 3, some "False"⟩] ∧
    (⟨2, 0, some "Repeat"⟩ : Edge) ∈ [(⟨0, 1, some "True"⟩ : Edge), ⟨1, 2, none⟩,
      ⟨2, 0, some "Repeat"⟩, ⟨0, 3, some "False"⟩] := by
  constructor
  · exact claim3_back_edge_unconditional.1 (.srcExpr (some "i")) (.srcExpr (some "xs"))
      [.simple "Expr" (some "f()")] 0 ⟨[], [], []⟩
      (⟨[⟨0, 1, some "True"⟩, ⟨1, 2, none⟩, ⟨2, 0, some "Next Iteration"⟩,
        ⟨0, 3, some "False"⟩],
        [(0, "For: i in xs"), (1, "Body"), (2, "f()"), (3, "After Loop")],
        [(0, "diamond"), (1, "rect"), (2, "rect"), (3, "rect")]⟩) 4
      (by simp [ast_to_mermaid_for, process_stmt_list, addShapedNode, add_edge, shape_label,
        escape_label, replaceChar, dictSet, dictGet, PyExpr.unparse])
  · exact claim3_back_edge_unconditional.2 (.srcExpr (some "c"))
      [.simple "Expr" (some "f()")] 0 ⟨[], [], []⟩
      (⟨[⟨0, 1, some "True"⟩, ⟨1, 2, none⟩, ⟨2, 0, some "Repeat"⟩, ⟨0, 3, some "False"⟩],
        [(0, "While: c"), (1, "Body"), (2, "f()"), (3, "After Loop")],
        [(0, "diamond"), (1, "rect"), (2, "rect"), (3, "rect")]⟩) 4
      (by simp [ast_to_mermaid_while, process_stmt_list, addShapedNode, add_edge, shape_label,
        escape_label, replaceChar, dictSet, dictGet, PyExpr.unparse])

/-! ## Claim C7 -/

/-- Claim C7, counterexample: a conditional with no else-branch appearing
as the elif of an enclosing conditional gets NO False edge out of its
decision node at all.  In `if a: f() elif b: g()` the inner conditional
(decision node `4`, labeled `Elif: b`, with empty orelse) has `4 → 5 True`
as its only outgoing edge: no fallthrough node is reachable from it via a
False edge. -/
theorem claim7_counterexample :
    buildFunction "f" [.ifStmt (.srcExpr (some "a")) [.simple "Expr" (some "f()")]
        [.ifStmt (.srcExpr (some "b")) [.simple "Expr" (some "g()")] []]] =
      some (⟨[⟨1, 2, some "True"⟩, ⟨2, 3, none⟩, ⟨1, 4, some "False"⟩, ⟨4, 5, some "True"⟩,
        ⟨5, 6, none⟩, ⟨3, 7, none⟩, ⟨6, 7, none⟩, ⟨0, 7, none⟩],
        [(0, "Function: f"), (1, "If: a"), (2, "Then"), (3, "f()"), (4, "Elif: b"),
         (5, "Then"), (6, "g()"), (7, "End If")],
        [(0, "circle"), (1, "diamond"), (2, "rect"), (3, "rect"), (4, "diamond"), (5, "rect"),
         (6, "rect"), (7, "rect")]⟩, 8) ∧
    ([(⟨1, 2, some "True"⟩ : Edge), ⟨2, 3, none⟩, ⟨1, 4, some "False"⟩, ⟨4, 5, some "True"⟩,
      ⟨5, 6, none⟩, ⟨3, 7, none⟩, ⟨6, 7, none⟩, ⟨0, 7, none⟩].all
      (fun e => !(e.frm == 4 && e.label == some "False"))) = true := by
  refine ⟨?_, by decide⟩
  simp [buildFunction, ast_to_mermaid_fn, process_stmt_list, ast_to_mermaid_if, ast_if_orelse,
    ast_elif_tail, addShapedNode, add_edge, shape_label, escape_label, replaceChar, dictSet,
    dictGet, PyExpr.unparse]

/-- Claim C7, amended: a conditional with no else-branch that is dispatched
through the `If` handler itself (i.e. not inlined as an elif) is indeed
never terminal: the handler always creates an "End If" fallthrough node as
the fragment's exit (`n - 1`, where the caller chains on), reachable from
the decision node via an edge labeled "False", next to the unlabeled edge
from the then-branch's end.  An elif-shaped conditional with no else gets
no such False edge (see the counterexample). -/
theorem claim7_no_else_fallthrough (t : PyExpr) (b : List Stmt) (id : Nat) (st st' : GState)
    (n : Nat) (h : ast_to_mermaid_if t b [] id st = some (st', n)) :
    dictGet st'.labels (n - 1) = some "End If" ∧
    (⟨id, n - 1, some "False"⟩ : Edge) ∈ st'.edges ∧
    ∃ te, (⟨te, n - 1, none⟩ : Edge) ∈ st'.edges := by
  simp only [ast_to_mermaid_if] at h
  split at h
  · exact absurd h (by simp)
  · rename_i st₃ te heq
    simp only [ast_if_orelse, Option.some.injEq, Prod.mk.injEq] at h
    obtain ⟨rfl, rfl⟩ := h
    refine ⟨?_, ?_, te, ?_⟩
    · show dictGet (dictSet st₃.labels (te + 1) _) (te + 1) = _
      rw [dictGet_set_self]
      decide
    · simp [add_edge, edges_addShapedNode]
    · simp [add_edge, edges_addShapedNode]

/-- Witness for the amended C7 at `if x: pass`. -/
theorem claim7_no_else_fallthrough_witness :
    dictGet [(1, "If: x"), (2, "Then"), (3, "pass"), (4, "End If")] 4 = some "End If" ∧
    (⟨1, 4, some "False"⟩ : Edge) ∈ [(⟨1, 2, some "True"⟩ : Edge), ⟨2, 3, none⟩,
      ⟨3, 4, none⟩, ⟨1, 4, some "False"⟩] ∧
    ∃ te, (⟨te, 4, none⟩ : Edge) ∈ [(⟨1, 2, some "True"⟩ : Edge), ⟨2, 3, none⟩,
      ⟨3, 4, none⟩, ⟨1, 4, some "False"⟩] := by
  have h := claim7_no_else_fallthrough (.srcExpr (some "x")) [.simple "Pass" (some "pass")] 1
    (⟨[], [], []⟩)
    (⟨[⟨1, 2, some "True"⟩, ⟨2, 3, none⟩, ⟨3, 4, none⟩, ⟨1, 4, some "False"⟩],
      [(1, "If: x"), (2, "Then"), (3, "pass"), (4, "End If")],
      [(1, "diamond"), (2, "rect"), (3, "rect"), (4, "rect")]⟩) 5
    (by simp [ast_to_mermaid_if, ast_if_orelse, process_stmt_list, addShapedNode, add_edge,
      shape_label, escape_label, replaceChar, dictSet, dictGet, PyExpr.unparse])
  simpa using h

/-! ## Claim C9 -/

/-- Claim C9: an if/elif whose final else body is non-empty gets a
synthetic decision node.  The build wraps the else body in
`ast.If(test=ast.Constant(True), …)`, so the output contains an extra
diamond-shaped node labeled `If: True` that corresponds to no statement of
the input tree. -/
theorem claim9_synthetic_else_wrapper (t : PyExpr) (b : List Stmt) (t2 : PyExpr)
    (b2 o2 : List Stmt) (id : Nat) (st st' : GState) (n : Nat)
    (h : ast_to_mermaid_if t b [.ifStmt t2 b2 o2] id st = some (st', n)) (ho : o2 ≠ []) :
    ∃ d, dictGet st'.labels d = some "If: True" ∧ dictGet st'.shapes d = some "diamond" := by
  simp only [ast_to_mermaid_if] at h
  split at h
  · exact absurd h (by simp)
  · rename_i st₃ te heq
    simp only [ast_if_orelse] at h
    split at h
    · exact absurd h (by simp)
    · rename_i etxt hunp
      split at h
      · exact absurd h (by simp)
      · rename_i st₄ tee heq2
        cases o2 with
        | nil => exact absurd rfl ho
        | cons s2 rest2 =>
          simp only [ast_elif_tail] at h
          split at h
          · exact absurd h (by simp)
          · rename_i st₅ nid heq3
            simp only [Option.some.injEq, Prod.mk.injEq] at h
            obtain ⟨rfl, rfl⟩ := h
            have hdec := if_decision_label heq3
            have hlt := (ast_to_mermaid_if_post heq3).lt
            refine ⟨tee + 1, ?_, ?_⟩
            · show dictGet (dictSet st₅.labels (nid - 1 + 1) _) (tee + 1) = _
              rw [dictGet_set_ne _ _ _ _ (by omega), hdec.1]
              decide
            · show dictGet (dictSet st₅.shapes (nid - 1 + 1) _) (tee + 1) = _
              rw [dictGet_set_ne _ _ _ _ (by omega), hdec.2]

/-- Witness for C9 at `if a: return r1 elif b: return r2 else: x = 1`: the
synthetic node is id `6`. -/
theorem claim9_synthetic_else_wrapper_witness :
    ∃ d, dictGet [(0, "If: a"), (1, "Then"), (2, "return r1"), (3, "Elif: b"), (4, "Then"),
      (5, "return r2"), (6, "If: True"), (7, "Then"), (8, "x = 1"), (9, "End If"),
      (10, "End If")] d = some "If: True" ∧
    dictGet [(0, "diamond"), (1, "rect"), (2, "rect"), (3, "diamond"), (4, "rect"), (5, "rect"),
      (6, "diamond"), (7, "rect"), (8, "rect"), (9, "rect"), (10, "rect")] d = some "diamond" := by
  exact claim9_synthetic_else_wrapper (.srcExpr (some "a")) [.simple "Return" (some "return r1")]
    (.srcExpr (some "b")) [.simple "Return" (some "return r2")] [.simple "Assign" (some "x = 1")]
    0 ⟨[], [], []⟩
    (⟨[⟨0, 1, some "True"⟩, ⟨1, 2, none⟩, ⟨0, 3, some "False"⟩, ⟨3, 4, some "True"⟩,
      ⟨4, 5, none⟩, ⟨6, 7, some "True"⟩, ⟨7, 8, none⟩, ⟨8, 9, none⟩, ⟨6, 9, some "False"⟩,
      ⟨3, 6, some "False"⟩, ⟨2, 10, none⟩, ⟨5, 10, none⟩],
      [(0, "If: a"), (1, "Then"), (2, "return r1"), (3, "Elif: b"), (4, "Then"),
       (5, "return r2"), (6, "If: True"), (7, "Then"), (8, "x = 1"), (9, "End If"),
       (10, "End If")],
      [(0, "diamond"), (1, "rect"), (2, "rect"), (3, "diamond"), (4, "rect"), (5, "rect"),
       (6, "diamond"), (7, "rect"), (8, "rect"), (9, "rect"), (10, "rect")]⟩) 11
    (by simp [ast_to_mermaid_if, ast_if_orelse, ast_elif_tail, process_stmt_list, addShapedNode,
      add_edge, shape_label, escape_label, replaceChar, dictSet, dictGet, PyExpr.unparse])
    (by simp)

/-! ## Claim C10 -/

/-- Claim C10: in an if/elif chain with a non-empty final else body, the
"End If" merge node (`n - 1`) receives edges only from the then-branch exit
and the elif-branch exit; the else body's exit (`n - 2`, the synthetic
wrapper's own merge) gets no edge to it.  Among the edges created by the
conditional, exactly the two listed ones enter the merge. -/
theorem claim10_else_exit_not_merged (t : PyExpr) (b : List Stmt) (t2 : PyExpr)
    (b2 o2 : List Stmt) (id : Nat) (st st' : GState) (n : Nat)
    (h : ast_to_mermaid_if t b [.ifStmt t2 b2 o2] id st = some (st', n)) (ho : o2 ≠ []) :
    ∃ a b', a < b' ∧ b' < n - 2 ∧
      (⟨a, n - 1, none⟩ : Edge) ∈ st'.edges ∧ (⟨b', n - 1, none⟩ : Edge) ∈ st'.edges ∧
      (∀ e, e ∈ st'.edges → e ∉ st.edges → e.dst = n - 1 → e.frm = a ∨ e.frm = b') ∧
      (∀ e, e ∈ st'.edges → e ∉ st.edges → e.frm = n - 2 → e.dst ≠ n - 1) := by
  simp only [ast_to_mermaid_if] at h
  split at h
  · exact absurd h (by simp)
  · rename_i st₃ te heq
    simp only [ast_if_orelse] at h
    split at h
    · exact absurd h (by simp)
    · rename_i etxt hunp
      split at h
      · exact absurd h (by simp)
      · rename_i st₄ tee heq2
        cases o2 with
        | nil => exact absurd rfl ho
        | cons s2 rest2 =>
          simp only [ast_elif_tail] at h
          split at h
          · exact absurd h (by simp)
          · rename_i st₅ nid heq3
            simp only [Option.some.injEq, Prod.mk.injEq] at h
            obtain ⟨rfl, rfl⟩ := h
            have hble := (process_stmt_list_post heq).le
            have hble2 := (process_stmt_list_post heq2).le
            have hbhi := (process_stmt_list_post heq).edges_hi
            have hbhi2 := (process_stmt_list_post heq2).edges_hi
            have hdlt := (ast_to_mermaid_if_post heq3).lt
            have hdhi := (ast_to_mermaid_if_post heq3).edges_hi
            have hmain : ∀ e, e ∈ (add_edge (add_edge (addShapedNode (add_edge st₅ (te + 1)
                (tee + 1) (some "False")) (nid - 1 + 1) "Process" "End If") te (nid - 1 + 1)
                none) tee (nid - 1 + 1) none).edges →
                e ∉ st.edges → e.dst = nid - 1 + 1 → e.frm = te ∨ e.frm = tee := by
              intro e he hnotst hdst
              simp only [add_edge, addShapedNode, List.mem_append, List.mem_singleton] at he
              rcases he with ((he | he) | he) | he
              · -- an edge coming out of the dummy else-wrapper build
                rcases hdhi e he with he4 | hhi
                · -- an edge predating the else-wrapper
                  rcases hbhi2 e he4 with he2 | hhi
                  · simp only [add_edge, addShapedNode, List.mem_append,
                      List.mem_singleton] at he2
                    rcases he2 with (he3 | rfl) | rfl
                    · -- an edge predating the elif head
                      rcases hbhi e he3 with he0 | hhi
                      · simp only [add_edge, addShapedNode, List.mem_append,
                          List.mem_singleton] at he0
                        rcases he0 with he0 | rfl
                        · exact absurd he0 hnotst
                        · simp at hdst; omega
                      · omega
                    · simp at hdst; omega
                    · simp at hdst; omega
                  · omega
                · omega
              · subst he; simp at hdst; omega
              · subst he; left; rfl
              · subst he; right; rfl
            refine ⟨te, tee, by omega, by omega, ?_, ?_, hmain, ?_⟩
            · simp [add_edge, addShapedNode]
            · simp [add_edge, addShapedNode]
            · intro e he hnotst hfrm hdst
              rcases hmain e he hnotst hdst with h1 | h1 <;> rw [h1] at hfrm <;> omega

/-- Witness for C10 at `if a: return r1 elif b: return r2 else: x = 1`:
the merge `10` is fed by `2` (then exit) and `5` (elif exit) only; node `9`
(the else wrapper's exit) has no edge to it. -/
theorem claim10_else_exit_not_merged_witness :
    ∃ a b', a < b' ∧ b' < 11 - 2 ∧
      (⟨a, 11 - 1, none⟩ : Edge) ∈ [(⟨0, 1, some "True"⟩ : Edge), ⟨1, 2, none⟩,
        ⟨0, 3, some "False"⟩, ⟨3, 4, some "True"⟩, ⟨4, 5, none⟩, ⟨6, 7, some "True"⟩,
        ⟨7, 8, none⟩, ⟨8, 9, none⟩, ⟨6, 9, some "False"⟩, ⟨3, 6, some "False"⟩,
        ⟨2, 10, none⟩, ⟨5, 10, none⟩] ∧
      (⟨b', 11 - 1, none⟩ : Edge) ∈ [(⟨0, 1, some "True"⟩ : Edge), ⟨1, 2, none⟩,
        ⟨0, 3, some "False"⟩, ⟨3, 4, some "True"⟩, ⟨4, 5, none⟩, ⟨6, 7, some "True"⟩,
        ⟨7, 8, none⟩, ⟨8, 9, none⟩, ⟨6, 9, some "False"⟩, ⟨3, 6, some "False"⟩,
        ⟨2, 10, none⟩, ⟨5, 10, none⟩] ∧
      (∀ e, e ∈ [(⟨0, 1, some "True"⟩ : Edge), ⟨1, 2, none⟩, ⟨0, 3, some "False"⟩,
        ⟨3, 4, some "True"⟩, ⟨4, 5, none⟩, ⟨6, 7, some "True"⟩, ⟨7, 8, none⟩, ⟨8, 9, none⟩,
        ⟨6, 9, some "False"⟩, ⟨3, 6, some "False"⟩, ⟨2, 10, none⟩, ⟨5, 10, none⟩] →
        e ∉ (⟨[], [], []⟩ : GState).edges → e.dst = 11 - 1 → e.frm = a ∨ e.frm = b') ∧
      (∀ e, e ∈ [(⟨0, 1, some "True"⟩ : Edge), ⟨1, 2, none⟩, ⟨0, 3, some "False"⟩,
        ⟨3, 4, some "True"⟩, ⟨4, 5, none⟩, ⟨6, 7, some "True"⟩, ⟨7, 8, none⟩, ⟨8, 9, none⟩,
        ⟨6, 9, some "False"⟩, ⟨3, 6, some "False"⟩, ⟨2, 10, none⟩, ⟨5, 10, none⟩] →
        e ∉ (⟨[], [], []⟩ : GState).edges → e.frm = 11 - 2 → e.dst ≠ 11 - 1) := by
  exact claim10_else_exit_not_merged (.srcExpr (some "a"))
    [.simple "Return" (some "return r1")] (.srcExpr (some "b"))
    [.simple "Return" (some "return r2")] [.simple "Assign" (some "x = 1")] 0 ⟨[], [], []⟩
    (⟨[⟨0, 1, some "True"⟩, ⟨1, 2, none⟩, ⟨0, 3, some "False"⟩, ⟨3, 4, some "True"⟩,
      ⟨4, 5, none⟩, ⟨6, 7, some "True"⟩, ⟨7, 8, none⟩, ⟨8, 9, none⟩, ⟨6, 9, some "False"⟩,
      ⟨3, 6, some "False"⟩, ⟨2, 10, none⟩, ⟨5, 10, none⟩],
      [(0, "If: a"), (1, "Then"), (2, "return r1"), (3, "Elif: b"), (4, "Then"),
       (5, "return r2"), (6, "If: True"), (7, "Then"), (8, "x = 1"), (9, "End If"),
       (10, "End If")],
      [(0, "diamond"), (1, "rect"), (2, "rect"), (3, "diamond"), (4, "rect"), (5, "rect"),
       (6, "diamond"), (7, "rect"), (8, "rect"), (9, "rect"), (10, "rect")]⟩) 11
    (by simp [ast_to_mermaid_if, ast_if_orelse, ast_elif_tail, process_stmt_list, addShapedNode,
      add_edge, shape_label, escape_label, replaceChar, dictSet, dictGet, PyExpr.unparse])
    (by simp)

/-! ## Claim C8 -/

/-- Claim C8: referential closure.  Every edge of a function build
references only existing nodes: its source and destination ids both appear
among the labeled node ids produced by the same build. -/
theorem claim8_no_dangling_edges (name : String) (body : List Stmt) (st : GState) (n : Nat)
    (h : buildFunction name body = some (st, n)) :
    ∀ e, e ∈ st.edges → hasKey st.labels e.frm ∧ hasKey st.labels e.dst := by
  simp only [buildFunction, ast_to_mermaid_fn] at h
  split at h
  · exact absurd h (by simp)
  · rename_i st₂ last heq
    simp only [Option.some.injEq, Prod.mk.injEq] at h
    obtain ⟨rfl, rfl⟩ := h
    intro e he
    have hpost := process_stmt_list_post heq
    have hk0 : hasKey (addShapedNode ⟨[], [], []⟩ 0 "FunctionDef"
        ("Function: " ++ name)).labels 0 := hasKey_addShapedNode_self _ _ _ _
    rcases hpost.closure hk0 e he with h0 | hk
    · simp [addShapedNode] at h0
    · exact hk

/-- Witness for C8 at the one-statement body `[return x]`. -/
theorem claim8_no_dangling_edges_witness :
    hasKey [(0, "Function: f"), (1, "return x")] 0 ∧
    hasKey [(0, "Function: f"), (1, "return x")] 1 := by
  have h := claim8_no_dangling_edges "f" [.simple "Return" (some "return x")]
    (⟨[⟨0, 1, none⟩], [(0, "Function: f"), (1, "return x")], [(0, "circle"), (1, "rect")]⟩) 2
    (by simp [buildFunction, ast_to_mermaid_fn, process_stmt_list, addShapedNode, add_edge,
      shape_label, escape_label, replaceChar, dictSet, dictGet])
    ⟨0, 1, none⟩ (by simp)
  exact h

/-! ## Claim C4 -/

/-- Claim C4, counterexample: reachability fails.  When the body contains a
conditional, the sequence composer wires the preceding node to the
sub-fragment's FINAL node (`next_id_sub - 1`, the merge), not to its
decision node: in `def f(): if c: f()` the only edge out of the start node
is `0 → 4`, so the decision node `1` (and the whole then-branch) is a
labeled node unreachable from the start node. -/
theorem claim4_counterexample :
    buildFunction "f" [.ifStmt (.srcExpr (some "c")) [.simple "Expr" (some "f()")] []] =
      some (⟨[⟨1, 2, some "True"⟩, ⟨2, 3, none⟩, ⟨3, 4, none⟩, ⟨1, 4, some "False"⟩,
        ⟨0, 4, none⟩],
        [(0, "Function: f"), (1, "If: c"), (2, "Then"), (3, "f()"), (4, "End If")],
        [(0, "circle"), (1, "diamond"), (2, "rect"), (3, "rect"), (4, "rect")]⟩, 5) ∧
    hasKey [(0, "Function: f"), (1, "If: c"), (2, "Then"), (3, "f()"), (4, "End If")] 1 ∧
    ¬ Reach (⟨[⟨1, 2, some "True"⟩, ⟨2, 3, none⟩, ⟨3, 4, none⟩, ⟨1, 4, some "False"⟩,
      ⟨0, 4, none⟩],
      [(0, "Function: f"), (1, "If: c"), (2, "Then"), (3, "f()"), (4, "End If")],
      [(0, "circle"), (1, "diamond"), (2, "rect"), (3, "rect"), (4, "rect")]⟩ : GState) 0 1 := by
  refine ⟨?_, by decide, ?_⟩
  · simp [buildFunction, ast_to_mermaid_fn, process_stmt_list, ast_to_mermaid_if, ast_if_orelse,
      addShapedNode, add_edge, shape_label, escape_label, replaceChar, dictSet, dictGet,
      PyExpr.unparse]
  · intro hreach
    have key : ∀ x, Reach (⟨[⟨1, 2, some "True"⟩, ⟨2, 3, none⟩, ⟨3, 4, none⟩,
        ⟨1, 4, some "False"⟩, ⟨0, 4, none⟩],
        [(0, "Function: f"), (1, "If: c"), (2, "Then"), (3, "f()"), (4, "End If")],
        [(0, "circle"), (1, "diamond"), (2, "rect"), (3, "rect"), (4, "rect")]⟩ : GState)
        0 x → x = 0 ∨ x = 4 := by
      intro x hx
      induction hx with
      | refl => exact Or.inl rfl
      | tail hab hbc ih =>
        obtain ⟨e, he, hfrm, hdst⟩ := hbc
        simp only [List.mem_cons, List.not_mem_nil, or_false] at he
        rcases he with rfl | rfl | rfl | rfl | rfl <;> simp only at hfrm hdst <;> omega
    exact absurd (key 1 hreach) (by omega)

/-- Claim C4, amended: (a) provided no statement of the tree is a nested
function definition (class name `FunctionDef`, which `shape_label` also
maps to the start shape `circle`), the build's only circle-shaped node is
the function-entry node `0`; (b) reachability of every labeled node from
the start node does hold for bodies of simple statements only (where the
graph is one chain), though not in general (see the counterexample). -/
theorem claim4_start_shape_and_chain_reachability (name : String) (body : List Stmt)
    (st : GState) (n : Nat) (h : buildFunction name body = some (st, n)) :
    (stmtsNoDef body = true → ∀ k, dictGet st.shapes k = some "circle" → k = 0) ∧
    (stmtsAllSimple body = true → ∀ k, hasKey st.labels k → Reach st 0 k) := by
  simp only [buildFunction, ast_to_mermaid_fn] at h
  split at h
  · exact absurd h (by simp)
  · rename_i st₂ last heq
    simp only [Option.some.injEq, Prod.mk.injEq] at h
    obtain ⟨rfl, rfl⟩ := h
    have hpost := process_stmt_list_post heq
    constructor
    · intro hnd k hcirc
      have h1 := hpost.circles hnd k hcirc
      rw [shapes_addShapedNode] at h1
      by_cases hk0 : k = 0
      · exact hk0
      · rw [dictGet_set_ne _ _ _ _ (fun hh => hk0 hh.symm)] at h1
        simp [dictGet] at h1
    · intro hAS k hk
      obtain ⟨st'', hproc, hedges, hkeys, _⟩ :=
        chain_lemma body 0 (addShapedNode ⟨[], [], []⟩ 0 "FunctionDef"
          ("Function: " ++ name)) hAS
      rw [heq] at hproc
      simp only [Option.some.injEq, Prod.mk.injEq] at hproc
      obtain ⟨rfl, rfl⟩ := hproc
      have hchain : ∀ j, j ≤ body.length → Reach st₂ 0 j := by
        intro j
        induction j with
        | zero => intro _; exact Relation.ReflTransGen.refl
        | succ i ih =>
          intro hij
          refine Relation.ReflTransGen.tail (ih (by omega)) ?_
          refine ⟨⟨0 + i, 0 + i + 1, none⟩, ?_, by simp, by simp⟩
          rw [hedges]
          refine List.mem_append_right _ (List.mem_map.mpr ⟨i, List.mem_range.mpr ?_, rfl⟩)
          omega
      rcases hkeys k hk with hk1 | hik
      · have : k = 0 := by
          rw [labels_addShapedNode] at hk1
          rcases (hasKey_set _ _ _ _).1 hk1 with rfl | habs
          · rfl
          · simp [hasKey, dictGet] at habs
        rw [this]
        exact Relation.ReflTransGen.refl
      · exact hchain k (by omega)

/-- Witness for the amended C4 at the body `[x = 1]`: the circle test at
node `1` and reachability of node `1`. -/
theorem claim4_start_shape_and_chain_reachability_witness :
    (dictGet [(0, "circle"), (1, "rect")] 1 = some "circle" → (1 : Nat) = 0) ∧
    Reach (⟨[⟨0, 1, none⟩], [(0, "Function: f"), (1, "x = 1")],
      [(0, "circle"), (1, "rect")]⟩ : GState) 0 1 := by
  have h := claim4_start_shape_and_chain_reachability "f" [.simple "Assign" (some "x = 1")]
    (⟨[⟨0, 1, none⟩], [(0, "Function: f"), (1, "x = 1")], [(0, "circle"), (1, "rect")]⟩) 2
    (by simp [buildFunction, ast_to_mermaid_fn, process_stmt_list, addShapedNode, add_edge,
      shape_label, escape_label, replaceChar, dictSet, dictGet])
  exact ⟨fun hc => h.1 (by decide) 1 hc, h.2 (by decide) 1 (by decide)⟩
